import Mathlib

/-!
Verification development for the exam-timetabling engine
(`scheduling.py`, `utils.py`, `app.py`).

The embedding works over a day-number calendar: a date is a `Nat`, and the
weekday of day `d` is `(w0 + d) % 7` where `w0` is the weekday of day 0
(Python convention: Monday = 0, Sunday = 6).  Subject codes, subject names
and branch names are numeric identifiers.  The `Exam Date` column holds
either the empty string, a concrete date, or the sentinel string
"Out of Range"; this is modelled by the inductive `ExamDate`.
-/

inductive Slot where
  | morning
  | afternoon
deriving DecidableEq, Repr, Inhabited

inductive ExamDate where
  | unassigned
  | assigned (d : Nat)
  | outOfRange
deriving DecidableEq, Repr, Inhabited

/-- One subject-offering record (a row of the ingested dataframe). -/
structure Row where
  moduleCode : Nat
  subject : Nat
  branch : Nat
  semester : Nat
  category : Nat
  oe : Option Nat
  studentCount : Nat
  commonAcrossSems : Bool
  isCommonYes : Bool
  examDate : ExamDate
  timeSlot : Option Slot
deriving DecidableEq, Repr, Inhabited

/-- Numeric code standing for the excluded category tag INTD. -/
def catINTD : Nat := 1

/-- Row lookup with a default, standing for `df.loc[row_idx]`. -/
def rget (df : List Row) (i : Nat) : Row := df.getD i default

/-- `True` on days that are neither the weekly rest day (Sunday, weekday 6)
nor a holiday; this is the validity test inlined throughout the source. -/
def isValidDay (w0 : Nat) (hs : List Nat) (d : Nat) : Bool :=
  ((w0 + d) % 7 != 6) && !(hs.contains d)

/-- Fuel-bounded linear scan for the first valid day at or after `cur`. -/
def findValidAux (w0 : Nat) (hs : List Nat) : Nat → Nat → Option Nat
  | 0, _ => none
  | Nat.succ fuel, cur =>
    if isValidDay w0 hs cur then some cur else findValidAux w0 hs fuel (cur + 1)

/-- `utils.find_next_valid_day_in_range`: first valid day in `[startD, endD]`,
`none` if the window holds no valid day (the Python loop runs exactly
`endD + 1 - startD` iterations). -/
def find_next_valid_day_in_range (w0 : Nat) (hs : List Nat) (startD endD : Nat) : Option Nat :=
  findValidAux w0 hs (endD + 1 - startD) startD

/-- `utils.find_next_valid_day_for_electives`: unbounded forward search.
With finitely many holidays the Python `while True` loop always terminates
within `7 * (|hs| + 1)` days (each block of 7 days has 6 non-Sundays and the
holiday set can exclude at most `|hs|` of them), so that bound is used as
fuel here. -/
def find_next_valid_day_for_electives (w0 : Nat) (hs : List Nat) (startD : Nat) : Option Nat :=
  findValidAux w0 hs (7 * (hs.length + 1)) startD

/-- Elective-track membership tests (`df['OE'].isin(['OE1','OE5'])` and
`df['OE'] == 'OE2'`); tracks are numbered 1, 2, 5. -/
def isOE15 (r : Row) : Bool := r.oe == some 1 || r.oe == some 5

def isOE2 (r : Row) : Bool := r.oe == some 2

/-- The stamped date string: a found day gives a date, a missing day gives
the empty string. -/
def dateFromOpt : Option Nat → ExamDate
  | some d => ExamDate.assigned d
  | none => ExamDate.unassigned

/-- `scheduling.schedule_electives_globally`: OE1/OE5 offerings get elective
day 1 and the morning slot, OE2 offerings get elective day 2 and the
afternoon slot, other rows are untouched. -/
def schedule_electives_globally (w0 : Nat) (hs : List Nat) (dfEle : List Row)
    (maxNonElecDate : Nat) : List Row :=
  let day1 := find_next_valid_day_for_electives w0 hs (maxNonElecDate + 1)
  let day2 := match day1 with
    | some d1 => find_next_valid_day_for_electives w0 hs (d1 + 1)
    | none => none
  dfEle.map (fun r =>
    if isOE15 r then { r with examDate := dateFromOpt day1, timeSlot := some Slot.morning }
    else if isOE2 r then { r with examDate := dateFromOpt day2, timeSlot := some Slot.afternoon }
    else r)

/-- `app.handle_electives`: computes the two elective days and stamps the
electives only when day 2 lies on or before the campaign end; otherwise the
electives stay unscheduled and the infeasibility is surfaced (the returned
flag models the `st.warning` branch).  The `none` fallbacks are unreachable
for the source, whose search loops until a valid day exists. -/
def handle_electives (w0 : Nat) (hs : List Nat) (dfScheduled dfEle : List Row)
    (endDate maxNonElecDate : Nat) : List Row × Bool :=
  match find_next_valid_day_for_electives w0 hs (maxNonElecDate + 1) with
  | none => (dfScheduled, true)
  | some d1 =>
    match find_next_valid_day_for_electives w0 hs (d1 + 1) with
    | none => (dfScheduled, true)
    | some d2 =>
      if d2 ≤ endDate then
        (dfScheduled ++ schedule_electives_globally w0 hs dfEle maxNonElecDate, false)
      else (dfScheduled, true)

/-- A sample elective offering used by the elective witnesses. -/
def sampleOE1Row : Row :=
  { moduleCode := 100, subject := 10, branch := 1, semester := 3, category := 0,
    oe := some 1, studentCount := 40, commonAcrossSems := false, isCommonYes := false,
    examDate := ExamDate.unassigned, timeSlot := none }

/-- Boolean test that an `Exam Date` cell equals a given concrete date
(string comparison `df['Exam Date'] == gap_str` in the source). -/
def dateIs (e : ExamDate) (d : Nat) : Bool :=
  match e with
  | ExamDate.assigned x => x == d
  | _ => false

/-- The concrete dates carried by a record set (empty cells and the
out-of-range marker carry none). -/
def datesOf (s : List Row) : List Nat :=
  s.filterMap (fun r => match r.examDate with
    | ExamDate.assigned d => some d
    | _ => none)

def listMax : List Nat → Nat
  | [] => 0
  | x :: xs => max x (listMax xs)

def listMin : List Nat → Nat
  | [] => 0
  | [x] => x
  | x :: y :: t => min x (listMin (y :: t))

/-- Overall date span as the source computes it: last minus first assigned
date plus one (0 when nothing is assigned). -/
def scheduleSpan (s : List Row) : Nat :=
  if (datesOf s).isEmpty then 0 else listMax (datesOf s) - listMin (datesOf s) + 1

def lastAssignedDate (s : List Row) : Nat := listMax (datesOf s)

/-- Row filter of the move loop of
`scheduling.optimize_schedule_by_filling_gaps`:
`(CommonAcrossSems == False) & (IsCommon != 'YES')`.  Note this looks only
at the row-level flags, not at the atomic unit the row belongs to. -/
def gapRowEligible (r : Row) : Bool := (!r.commonAcrossSems) && (!r.isCommonYes)

/-- The emptiness mask of the move loop: some row of the same semester
frame and the same branch already sits on day `g`. -/
def cohortBusyOn (st : List Row) (sem branch g : Nat) : Bool :=
  st.any (fun r2 => r2.semester == sem && r2.branch == branch && dateIs r2.examDate g)

/-- Decision taken for one row of the move loop: rows whose own common
flags are unset and that carry a date are candidates; the single earliest
valid day in `[base, current - 1]` is computed, and the move happens
exactly when the row's branch-semester cohort is free on that one day. -/
def gapTarget (w0 : Nat) (hs : List Nat) (base : Nat) (st : List Row) (r : Row) : Option Nat :=
  if gapRowEligible r then
    match r.examDate with
    | ExamDate.assigned d =>
      match find_next_valid_day_in_range w0 hs base (d - 1) with
      | some g => if cohortBusyOn st r.semester r.branch g then none else some g
      | none => none
    | _ => none
  else none

/-- One iteration of the move loop, for the offering at index `i` (only the
`Exam Date` cell changes; the slot is kept). -/
def gapFillStep (w0 : Nat) (hs : List Nat) (base : Nat) (acc : List Row × Nat) (i : Nat) :
    List Row × Nat :=
  match gapTarget w0 hs base acc.1 (rget acc.1 i) with
  | some g => (acc.1.set i { rget acc.1 i with examDate := ExamDate.assigned g }, acc.2 + 1)
  | none => acc

/-- `scheduling.optimize_schedule_by_filling_gaps`, over the concatenated
semester frames (rows grouped by semester, as the callers build them).
Returns the updated record set and `moves_made`.  Rows carrying the
out-of-range marker would make the source raise in `strptime`; the model
treats them as undated, which coincides with the source wherever the
marker is absent.  The `endDate` argument is accepted and, as in the
source, never used. -/
def optimize_schedule_by_filling_gaps (w0 : Nat) (hs : List Nat) (base endDate : Nat)
    (s : List Row) : List Row × Nat :=
  if (datesOf s).isEmpty then (s, 0)
  else (List.range s.length).foldl (gapFillStep w0 hs base) (s, 0)

/-- A frequency-1 offering of cohort (branch 1, semester 1) already sitting
on day 1. -/
def c5RowV : Row :=
  { moduleCode := 1, subject := 1, branch := 1, semester := 1, category := 0,
    oe := none, studentCount := 50, commonAcrossSems := false, isCommonYes := false,
    examDate := ExamDate.assigned 1, timeSlot := some Slot.morning }

/-- A frequency-1 offering of the same cohort assigned on day 9. -/
def c5RowU : Row :=
  { moduleCode := 2, subject := 2, branch := 1, semester := 1, category := 0,
    oe := none, studentCount := 50, commonAcrossSems := false, isCommonYes := false,
    examDate := ExamDate.assigned 9, timeSlot := some Slot.morning }

def c5Input : List Row := [c5RowV, c5RowU]

/-- An unflagged single-cohort offering on day 5. -/
def c6RowA : Row :=
  { moduleCode := 3, subject := 3, branch := 1, semester := 1, category := 0,
    oe := none, studentCount := 50, commonAcrossSems := false, isCommonYes := false,
    examDate := ExamDate.assigned 5, timeSlot := some Slot.morning }

/-- A common-across-semesters offering pinned on day 9. -/
def c6RowD : Row :=
  { moduleCode := 4, subject := 4, branch := 2, semester := 1, category := 0,
    oe := none, studentCount := 50, commonAcrossSems := true, isCommonYes := false,
    examDate := ExamDate.assigned 9, timeSlot := some Slot.morning }

def c6Input : List Row := [c6RowA, c6RowD]

/-- The per-(date, session) running student totals
(`session_capacity` in `scheduling.schedule_all_subjects_comprehensively`),
as a total map defaulting to 0. -/
def Cap : Type := Nat → Slot → Nat

def emptyCap : Cap := fun _ _ => 0

/-- `get_session_capacity`. -/
def get_session_capacity (c : Cap) (d : Nat) (sl : Slot) : Nat := c d sl

/-- `add_to_session_capacity`. -/
def add_to_session_capacity (c : Cap) (d : Nat) (sl : Slot) (n : Nat) : Cap :=
  fun d2 s2 => if d2 = d ∧ s2 = sl then c d2 s2 + n else c d2 s2

/-- `can_fit_in_session`: adding the students keeps the session at or
below the ceiling. -/
def can_fit_in_session (MAX : Nat) (c : Cap) (d : Nat) (sl : Slot) (n : Nat) : Bool :=
  decide (get_session_capacity c d sl + n ≤ MAX)

/-- `daily_scheduled_branch_sem`: per-date set of branch-semester cohorts
already given an exam that day. -/
def Daily : Type := Nat → List (Nat × Nat)

def emptyDaily : Daily := fun _ => []

def markUsed (m : Daily) (d : Nat) (bs : List (Nat × Nat)) : Daily :=
  fun d2 => if d2 = d then bs ++ m d2 else m d2

/-- `utils.get_preferred_slot`: deterministic slot preference from the
semester parity and its pair position. -/
def get_preferred_slot (semester : Nat) : Slot :=
  if semester % 2 != 0 then
    if ((semester + 1) / 2) % 2 == 1 then Slot.morning else Slot.afternoon
  else
    if (semester / 2) % 2 == 1 then Slot.morning else Slot.afternoon

/-- The alternate slot tried when the preferred one cannot admit a unit. -/
def altSlot : Slot → Slot
  | Slot.morning => Slot.afternoon
  | Slot.afternoon => Slot.morning

/-- The capacity-aware slot choice inlined at all three placement sites of
the scheduler: preferred slot if it fits, otherwise the alternate slot if
that fits, otherwise no slot (the unit is skipped for the day). -/
def chooseSlotWithCapacity (MAX : Nat) (cap : Cap) (d : Nat) (pref : Slot) (total : Nat) :
    Option Slot :=
  if can_fit_in_session MAX cap d pref total then some pref
  else if can_fit_in_session MAX cap d (altSlot pref) total then some (altSlot pref)
  else none

/-- Row eligibility for the scheduler
(`(Category != 'INTD') & ~OE-nonempty`). -/
def eligibleRow (r : Row) : Bool := (r.category != catINTD) && r.oe.isNone

/-- Indices of the eligible rows, in dataframe order. -/
def eligibleIdx (df : List Row) : List Nat :=
  (List.range df.length).filter (fun i => eligibleRow (rget df i))

/-- The conflict unit: (branch, semester). -/
def cohortOf (r : Row) : Nat × Nat := (r.branch, r.semester)

/-- Indices of the eligible rows carrying one module code (the rows of one
atomic unit; `eligible_subjects.groupby('ModuleCode')`). -/
def unitRowsOfCode (df : List Row) (c : Nat) : List Nat :=
  (eligibleIdx df).filter (fun i => (rget df i).moduleCode == c)

/-- Stable ascending insertion of a module code. -/
def insertAsc (x : Nat) : List Nat → List Nat
  | [] => [x]
  | y :: t => if x ≤ y then x :: y :: t else y :: insertAsc x t

/-- Sorted module-code keys (pandas `groupby` iterates keys in sorted
order). -/
def sortAsc : List Nat → List Nat
  | [] => []
  | x :: t => insertAsc x (sortAsc t)

def moduleCodesSorted (df : List Row) : List Nat :=
  sortAsc (((eligibleIdx df).map (fun i => (rget df i).moduleCode)).dedup)

/-- One atomic scheduling unit (the dict built per module code). -/
structure AtomicUnit where
  moduleCode : Nat
  frequency : Nat
  isCommon : Bool
  isCommonAcross : Bool
  isCommonWithin : Bool
  branchSems : List (Nat × Nat)
  allRows : List Nat
  uniqueSemesters : List Nat
  uniqueBranches : List Nat
  priorityScore : Nat
deriving DecidableEq, Repr, Inhabited

/-- Builds the atomic unit of one module code: its rows, distinct cohorts
(frequency), distinct semesters and branches, common flags (taken from the
first row of the group) and the priority score. -/
def mkAtomicUnit (df : List Row) (c : Nat) : AtomicUnit :=
  let rows := unitRowsOfCode df c
  let bsems := (rows.map (fun i => cohortOf (rget df i))).dedup
  let usems := (rows.map (fun i => (rget df i).semester)).dedup
  let ubranches := (rows.map (fun i => (rget df i).branch)).dedup
  let freq := bsems.length
  let icA := match rows with | [] => false | i :: _ => (rget df i).commonAcrossSems
  let icW := match rows with | [] => false | i :: _ => (rget df i).isCommonYes
  let score := freq * 10 +
    (if icA then 50 else if icW then 25 else if decide (1 < freq) then 15 else 0) +
    (if decide (1 < usems.length) then 15 else 0) +
    (if decide (1 < ubranches.length) then 10 else 0)
  { moduleCode := c, frequency := freq,
    isCommon := icA || icW || decide (1 < freq),
    isCommonAcross := icA, isCommonWithin := icW,
    branchSems := bsems, allRows := rows,
    uniqueSemesters := usems, uniqueBranches := ubranches,
    priorityScore := score }

def buildAtomicUnits (df : List Row) : List AtomicUnit :=
  (moduleCodesSorted df).map (mkAtomicUnit df)

/-- Stable descending insertion by priority score (`sorted(...,
key=priority, reverse=True)` is stable, so ties keep construction
order). -/
def insertDescUnit (u : AtomicUnit) : List AtomicUnit → List AtomicUnit
  | [] => [u]
  | v :: t => if u.priorityScore < v.priorityScore then v :: insertDescUnit u t else u :: v :: t

def sortUnitsDesc : List AtomicUnit → List AtomicUnit
  | [] => []
  | u :: t => insertDescUnit u (sortUnitsDesc t)

def bandVeryHigh (u : AtomicUnit) : Bool := u.isCommonAcross || decide (8 ≤ u.frequency)

def bandHigh (u : AtomicUnit) : Bool := u.isCommonWithin

def bandMedium (u : AtomicUnit) : Bool := decide (2 ≤ u.frequency)

/-- The scheduling queue: four priority bands concatenated, each internally
sorted by descending score. -/
def masterQueue (units : List AtomicUnit) : List AtomicUnit :=
  let sorted := sortUnitsDesc units
  sorted.filter bandVeryHigh ++
  sorted.filter (fun u => bandHigh u && !bandVeryHigh u) ++
  sorted.filter (fun u => bandMedium u && !bandVeryHigh u && !bandHigh u) ++
  sorted.filter (fun u => !bandVeryHigh u && !bandHigh u && !bandMedium u)

/-- All branch-semester combinations served by eligible rows (the daily
coverage target). -/
def allBranchSemCombinations (df : List Row) : List (Nat × Nat) :=
  ((eligibleIdx df).map (fun i => cohortOf (rget df i))).dedup

/-- The unit's total student demand, recomputed from the live dataframe at
each placement site. -/
def unitTotalStudents (df : List Row) (u : AtomicUnit) : Nat :=
  (u.allRows.map (fun i => (rget df i).studentCount)).sum

/-- `unitTotalStudents` of the unit owning a module code, directly from
the dataframe. -/
def unitGroupTotal (df : List Row) (c : Nat) : Nat :=
  ((unitRowsOfCode df c).map (fun i => (rget df i).studentCount)).sum

/-- Writes the date and slot onto every listed row index
(`df.loc[row_idx, 'Exam Date'] = ...` over `atomic_unit['all_rows']`). -/
def stampRowsGo (idxs : List Nat) (d : Nat) (sl : Slot) : Nat → List Row → List Row
  | _, [] => []
  | i, r :: t =>
    (if i ∈ idxs then { r with examDate := ExamDate.assigned d, timeSlot := some sl }
     else r) :: stampRowsGo idxs d sl (i + 1) t

def stampRows (df : List Row) (idxs : List Nat) (d : Nat) (sl : Slot) : List Row :=
  stampRowsGo idxs d sl 0 df

/-- The mutable state threaded through the scheduler: the dataframe, the
session capacity totals and the per-day cohort-usage sets. -/
structure SchedState where
  df : List Row
  cap : Cap
  daily : Daily

/-- Phase A (the direct pass) for one unit: place today iff none of its
cohorts is used today, with the slot preference from the dominant (maximal)
semester and the two-slot capacity fallback; on failure keep the unit
queued. -/
def phaseAStep (MAX : Nat) (d : Nat) (acc : SchedState × List AtomicUnit) (u : AtomicUnit) :
    SchedState × List AtomicUnit :=
  let st := acc.1
  if u.branchSems.any (fun bs => decide (bs ∈ st.daily d)) then (acc.1, acc.2 ++ [u])
  else if u.branchSems.isEmpty then (acc.1, acc.2 ++ [u])
  else
    let prefSem := listMax u.uniqueSemesters
    let slot := get_preferred_slot prefSem
    let total := unitTotalStudents st.df u
    match chooseSlotWithCapacity MAX st.cap d slot total with
    | none => (acc.1, acc.2 ++ [u])
    | some sl =>
      ({ df := stampRows st.df u.allRows d sl,
         cap := add_to_session_capacity st.cap d sl total,
         daily := markUsed st.daily d u.branchSems }, acc.2)

def runPhaseA (MAX : Nat) (d : Nat) (st : SchedState) (queue : List AtomicUnit) :
    SchedState × List AtomicUnit :=
  queue.foldl (phaseAStep MAX d) (st, [])

/-- Phase B (the gap-fill pass) for one still-queued unit: frequency-1
units whose sole cohort is a coverage target not yet used today, placed
under the same capacity rule (slot preference from the first semester). -/
def phaseBStep (MAX : Nat) (allBS : List (Nat × Nat)) (d : Nat)
    (acc : SchedState × List AtomicUnit) (u : AtomicUnit) : SchedState × List AtomicUnit :=
  let st := acc.1
  if u.frequency == 1 then
    let ub := u.branchSems.headD (0, 0)
    if decide (ub ∈ allBS) && !(decide (ub ∈ st.daily d)) then
      let prefSem := u.uniqueSemesters.headD 0
      let slot := get_preferred_slot prefSem
      let total := unitTotalStudents st.df u
      match chooseSlotWithCapacity MAX st.cap d slot total with
      | none => (acc.1, acc.2 ++ [u])
      | some sl =>
        ({ df := stampRows st.df u.allRows d sl,
           cap := add_to_session_capacity st.cap d sl total,
           daily := markUsed st.daily d [ub] }, acc.2)
    else (acc.1, acc.2 ++ [u])
  else (acc.1, acc.2 ++ [u])

def runPhaseB (MAX : Nat) (allBS : List (Nat × Nat)) (d : Nat) (st : SchedState)
    (queue : List AtomicUnit) : SchedState × List AtomicUnit :=
  queue.foldl (phaseBStep MAX allBS d) (st, [])

/-- The extended-phase pass for one unit: same conflict and capacity rule
as the direct pass (slot preference from the first semester, no coverage
refinement). -/
def phaseExtStep (MAX : Nat) (d : Nat) (acc : SchedState × List AtomicUnit) (u : AtomicUnit) :
    SchedState × List AtomicUnit :=
  let st := acc.1
  if u.branchSems.any (fun bs => decide (bs ∈ st.daily d)) then (acc.1, acc.2 ++ [u])
  else
    let prefSem := u.uniqueSemesters.headD 0
    let slot := get_preferred_slot prefSem
    let total := unitTotalStudents st.df u
    match chooseSlotWithCapacity MAX st.cap d slot total with
    | none => (acc.1, acc.2 ++ [u])
    | some sl =>
      ({ df := stampRows st.df u.allRows d sl,
         cap := add_to_session_capacity st.cap d sl total,
         daily := markUsed st.daily d u.branchSems }, acc.2)

/-- The main loop: at most 15 scheduling days, each taken as the next
valid day within the campaign window; phase A then phase B per day; stops
early when the queue empties or no valid day remains.  Returns the state,
the remaining queue, the day cursor and the number of scheduling days
used. -/
def runMainDays (w0 : Nat) (hs : List Nat) (endD MAX : Nat) (allBS : List (Nat × Nat)) :
    Nat → Nat → Nat → SchedState → List AtomicUnit →
      SchedState × List AtomicUnit × Nat × Nat
  | 0, cur, day, st, queue => (st, queue, cur, day)
  | Nat.succ fuel, cur, day, st, queue =>
    if queue.isEmpty then (st, queue, cur, day)
    else
      match find_next_valid_day_in_range w0 hs cur endD with
      | none => (st, queue, cur, day)
      | some d =>
        let p1 := runPhaseA MAX d st queue
        let p2 := runPhaseB MAX allBS d p1.1 p1.2
        runMainDays w0 hs endD MAX allBS fuel (d + 1) (day + 1) p2.1 p2.2

/-- The extended phase: continue through valid days up to the 25-day total
bound, applying the extended pass, until the queue empties or days run
out.  Units still queued afterwards are simply left as they are (their
rows keep whatever `Exam Date` they had). -/
def runExtendedDays (w0 : Nat) (hs : List Nat) (endD MAX : Nat) :
    Nat → Nat → SchedState → List AtomicUnit → SchedState × List AtomicUnit
  | 0, _, st, queue => (st, queue)
  | Nat.succ fuel, cur, st, queue =>
    if queue.isEmpty then (st, queue)
    else
      match find_next_valid_day_in_range w0 hs cur endD with
      | none => (st, queue)
      | some d =>
        let p1 := queue.foldl (phaseExtStep MAX d) (st, [])
        runExtendedDays w0 hs endD MAX fuel (d + 1) p1.1 p1.2

/-- `scheduling.schedule_all_subjects_comprehensively`: atomic units are
built and queued by priority band, placed greedily over at most 15 main
scheduling days with per-day gap filling, then over extended days up to
the 25-day bound.  Nothing is ever written to the rows of units that are
still queued when both phases end (in particular, no out-of-range marker
exists anywhere in the source).  Returns the final state and the leftover
queue. -/
def schedule_all_subjects_comprehensively (w0 : Nat) (hs : List Nat) (base endD MAX : Nat)
    (df : List Row) : SchedState × List AtomicUnit :=
  if (eligibleIdx df).isEmpty then ({ df := df, cap := emptyCap, daily := emptyDaily }, [])
  else
    let mq := masterQueue (buildAtomicUnits df)
    let m := runMainDays w0 hs endD MAX (allBranchSemCombinations df) 15 base 0
      { df := df, cap := emptyCap, daily := emptyDaily } mq
    runExtendedDays w0 hs endD MAX (25 - m.2.2.2) m.2.2.1 m.1 m.2.1

/-- The immutable (identity) part of a record set is preserved by the
scheduler: lengths agree and every static column agrees pointwise. -/
def StaticSame (df1 df2 : List Row) : Prop :=
  df1.length = df2.length ∧ ∀ j,
    (rget df2 j).moduleCode = (rget df1 j).moduleCode ∧
    (rget df2 j).studentCount = (rget df1 j).studentCount ∧
    (rget df2 j).branch = (rget df1 j).branch ∧
    (rget df2 j).semester = (rget df1 j).semester ∧
    (rget df2 j).oe = (rget df1 j).oe ∧
    (rget df2 j).category = (rget df1 j).category ∧
    (rget df2 j).commonAcrossSems = (rget df1 j).commonAcrossSems ∧
    (rget df2 j).isCommonYes = (rget df1 j).isCommonYes

def CapBounded (MAX : Nat) (c : Cap) : Prop := ∀ d sl, c d sl ≤ MAX

/-- Conditions tying a unit to the dataframe it was built from. -/
def UnitFromDf (df0 : List Row) (u : AtomicUnit) : Prop :=
  u.allRows = unitRowsOfCode df0 u.moduleCode ∧
  u.branchSems = ((unitRowsOfCode df0 u.moduleCode).map (fun i => cohortOf (rget df0 i))).dedup ∧
  u.frequency = u.branchSems.length

/-- Two `Exam Date` cells hold the same concrete date. -/
def sharesAssignedDate (e1 e2 : ExamDate) : Bool :=
  match e1, e2 with
  | ExamDate.assigned a, ExamDate.assigned b => a == b
  | _, _ => false

/-- Row-level no-double-booking: two distinct non-elective offerings of the
same (branch, semester) cohort sitting on the same concrete date always
belong to the same atomic unit (module code). -/
def cohortClashFree (s : List Row) : Prop :=
  ∀ i, i < s.length → ∀ j, j < s.length → i ≠ j →
    (rget s i).oe = none → (rget s j).oe = none →
    cohortOf (rget s i) = cohortOf (rget s j) →
    sharesAssignedDate (rget s i).examDate (rget s j).examDate = true →
    (rget s i).moduleCode = (rget s j).moduleCode

/-- The scheduler's global invariant: the static columns are untouched,
every session total respects the ceiling, rows of units whose demand
exceeds the ceiling are still unassigned, every dated row's cohort is
registered in that day's usage set, and the row-level no-double-booking
property holds. -/
def SchedInv (df0 : List Row) (MAX : Nat) (st : SchedState) : Prop :=
  StaticSame df0 st.df ∧
  CapBounded MAX st.cap ∧
  (∀ j, j < df0.length → eligibleRow (rget df0 j) = true →
    MAX < unitGroupTotal df0 (rget df0 j).moduleCode →
    (rget st.df j).examDate = ExamDate.unassigned) ∧
  (∀ j d, j < df0.length → (rget st.df j).examDate = ExamDate.assigned d →
    cohortOf (rget df0 j) ∈ st.daily d) ∧
  cohortClashFree st.df

/-- A small offering used to instantiate the capacity theorem. -/
def c3Row : Row :=
  { moduleCode := 7, subject := 7, branch := 1, semester := 1, category := 0,
    oe := none, studentCount := 100, commonAcrossSems := false, isCommonYes := false,
    examDate := ExamDate.unassigned, timeSlot := none }

/-- A single offering whose demand (5000) exceeds the ceiling (2000). -/
def c10Row : Row :=
  { moduleCode := 9, subject := 9, branch := 1, semester := 1, category := 0,
    oe := none, studentCount := 5000, commonAcrossSems := false, isCommonYes := false,
    examDate := ExamDate.unassigned, timeSlot := none }

/-- A single offering whose demand (3000) exceeds the ceiling (2000), so
it can never be placed and survives both scheduling phases. -/
def c4Row : Row :=
  { moduleCode := 11, subject := 11, branch := 1, semester := 1, category := 0,
    oe := none, studentCount := 3000, commonAcrossSems := false, isCommonYes := false,
    examDate := ExamDate.unassigned, timeSlot := none }

/-- A common-within-semester unit for cohort (branch 2, semester 1). -/
def c1RowW : Row :=
  { moduleCode := 1, subject := 21, branch := 2, semester := 1, category := 0,
    oe := none, studentCount := 100, commonAcrossSems := false, isCommonYes := true,
    examDate := ExamDate.unassigned, timeSlot := none }

/-- First offering of the frequency-2 unit (module 2), branch 1. -/
def c1RowM1 : Row :=
  { moduleCode := 2, subject := 22, branch := 1, semester := 1, category := 0,
    oe := none, studentCount := 100, commonAcrossSems := false, isCommonYes := false,
    examDate := ExamDate.unassigned, timeSlot := none }

/-- Second offering of the frequency-2 unit (module 2), branch 2. -/
def c1RowM2 : Row :=
  { moduleCode := 2, subject := 22, branch := 2, semester := 1, category := 0,
    oe := none, studentCount := 100, commonAcrossSems := false, isCommonYes := false,
    examDate := ExamDate.unassigned, timeSlot := none }

def c1Input : List Row := [c1RowW, c1RowM1, c1RowM2]

/-- A unit carries some offering on a given date. -/
def unitAssignedOn (s : List Row) (u : AtomicUnit) (d : Nat) : Bool :=
  u.allRows.any (fun i => dateIs (rget s i).examDate d)

/-- A unit serves a cohort. -/
def unitTouches (u : AtomicUnit) (c : Nat × Nat) : Bool :=
  u.branchSems.contains c

/-- Non-empty OE tag (`df['OE'].notna() & (df['OE'].str.strip() != "")`). -/
def isOE (r : Row) : Bool := r.oe.isSome

/-- The identity key the OE optimizer uses to address rows in the
semester frames: (semester, subject, branch). -/
def rowKey (r : Row) : Nat × Nat × Nat := (r.semester, r.subject, r.branch)

/-- A calendar day carrying at least one exam (`exam_count_per_date`
membership). -/
def dayOccupied (s : List Row) (d : Nat) : Bool := s.any (fun r => dateIs r.examDate d)

def minAssignedDate (s : List Row) : Nat := listMin (datesOf s)

/-- The completely empty days: valid calendar days within the span from
the first to the last assigned date with no exams at all, in chronological
order. -/
def completelyEmptyDays (w0 : Nat) (hs : List Nat) (s : List Row) : List Nat :=
  (List.range' (minAssignedDate s) (lastAssignedDate s + 1 - minAssignedDate s)).filter
    (fun d => isValidDay w0 hs d && !dayOccupied s d)

/-- The scan for the earliest suitable pair: walk the empty days in
chronological order, stop at the first day at or past the current OE1/OE5
date; at each earlier empty day, the next valid calendar day must also be
completely empty. -/
def findOEPairGo (w0 : Nat) (hs : List Nat) (full : List Nat) (cur : Nat) :
    List Nat → Option (Nat × Nat)
  | [] => none
  | e :: rest =>
    if cur ≤ e then none
    else
      match find_next_valid_day_for_electives w0 hs (e + 1) with
      | some n => if full.contains n then some (e, n) else findOEPairGo w0 hs full cur rest
      | none => findOEPairGo w0 hs full cur rest

/-- Restamp every row whose (semester, subject, branch) key is listed
(the mask-based updates over the semester frames). -/
def stampKeys (s : List Row) (keys : List (Nat × Nat × Nat)) (d : Nat) (sl : Slot) :
    List Row :=
  s.map (fun r => if keys.contains (rowKey r) then
    { r with examDate := ExamDate.assigned d, timeSlot := some sl } else r)

/-- `scheduling.optimize_oe_subjects_after_scheduling`, over the
concatenated semester frames.  Returns the updated record set and
`moves_made` (1 when the OE block was relocated, else 0).  Rows whose
dates make the source raise (an OE1/OE5 first row without a parseable
date) are modelled as producing no change. -/
def optimize_oe_subjects_after_scheduling (w0 : Nat) (hs : List Nat) (s : List Row) :
    List Row × Nat :=
  if (s.filter isOE).isEmpty then (s, 0)
  else if (datesOf s).isEmpty then (s, 0)
  else
    if (completelyEmptyDays w0 hs s).isEmpty then (s, 0)
    else
      match s.find? isOE15 with
      | none => (s, 0)
      | some r0 =>
        match r0.examDate with
        | ExamDate.assigned cur =>
          match findOEPairGo w0 hs (completelyEmptyDays w0 hs s) cur
              (completelyEmptyDays w0 hs s) with
          | some (b1, b2) =>
            (stampKeys (stampKeys s ((s.filter isOE15).map rowKey) b1 Slot.morning)
              ((s.filter isOE2).map rowKey) b2 Slot.afternoon, 1)
          | none => (s, 0)
        | _ => (s, 0)

/-- The net per-row effect of a successful relocation when elective rows
are uniquely identified by their keys. -/
def oeStampFn (b1 b2 : Nat) (r : Row) : Row :=
  if isOE15 r then { r with examDate := ExamDate.assigned b1, timeSlot := some Slot.morning }
  else if isOE2 r then { r with examDate := ExamDate.assigned b2, timeSlot := some Slot.afternoon }
  else r

def c9RowA : Row :=
  { moduleCode := 31, subject := 31, branch := 11, semester := 1, category := 0,
    oe := some 1, studentCount := 50, commonAcrossSems := false, isCommonYes := false,
    examDate := ExamDate.assigned 10, timeSlot := some Slot.morning }

def c9RowB : Row :=
  { moduleCode := 32, subject := 32, branch := 12, semester := 1, category := 0,
    oe := some 1, studentCount := 50, commonAcrossSems := false, isCommonYes := false,
    examDate := ExamDate.assigned 2, timeSlot := some Slot.morning }

def c9RowB2 : Row :=
  { moduleCode := 33, subject := 33, branch := 13, semester := 1, category := 0,
    oe := some 1, studentCount := 50, commonAcrossSems := false, isCommonYes := false,
    examDate := ExamDate.assigned 3, timeSlot := some Slot.morning }

def c9RowX : Row :=
  { moduleCode := 34, subject := 34, branch := 14, semester := 1, category := 0,
    oe := none, studentCount := 50, commonAcrossSems := false, isCommonYes := false,
    examDate := ExamDate.assigned 1, timeSlot := some Slot.morning }

def c9RowC : Row :=
  { moduleCode := 35, subject := 35, branch := 15, semester := 1, category := 0,
    oe := none, studentCount := 50, commonAcrossSems := false, isCommonYes := false,
    examDate := ExamDate.assigned 6, timeSlot := some Slot.morning }

def c9RowD : Row :=
  { moduleCode := 36, subject := 36, branch := 16, semester := 1, category := 0,
    oe := none, studentCount := 50, commonAcrossSems := false, isCommonYes := false,
    examDate := ExamDate.assigned 10, timeSlot := some Slot.morning }

/-- OE1 offerings scattered over days 2, 3 and 10 (the first listed one on
day 10), plus non-elective exams on days 1, 6 and 10; day 4 is the weekly
rest day under anchor 2. -/
def c9Input : List Row := [c9RowA, c9RowB, c9RowB2, c9RowX, c9RowC, c9RowD]

/-- A pipeline-like state for the idempotence witness: non-electives on
days 1 and 2, a single OE1 offering on day 5. -/
def c9WitnessInput : List Row :=
  [ { moduleCode := 41, subject := 41, branch := 21, semester := 1, category := 0,
      oe := none, studentCount := 50, commonAcrossSems := false, isCommonYes := false,
      examDate := ExamDate.assigned 1, timeSlot := some Slot.morning },
    { moduleCode := 42, subject := 42, branch := 22, semester := 1, category := 0,
      oe := none, studentCount := 50, commonAcrossSems := false, isCommonYes := false,
      examDate := ExamDate.assigned 2, timeSlot := some Slot.morning },
    { moduleCode := 43, subject := 43, branch := 23, semester := 1, category := 0,
      oe := some 1, studentCount := 50, commonAcrossSems := false, isCommonYes := false,
      examDate := ExamDate.assigned 5, timeSlot := some Slot.morning } ]

/-- Two same-cohort offerings of distinct modules, one dated, used to
instantiate the row-level no-double-booking theorem. -/
def c2Row : Row :=
  { moduleCode := 51, subject := 51, branch := 1, semester := 1, category := 0,
    oe := none, studentCount := 100, commonAcrossSems := false, isCommonYes := false,
    examDate := ExamDate.unassigned, timeSlot := none }

def c2RowDated : Row :=
  { moduleCode := 52, subject := 52, branch := 1, semester := 1, category := 0,
    oe := none, studentCount := 100, commonAcrossSems := false, isCommonYes := false,
    examDate := ExamDate.assigned 5, timeSlot := some Slot.morning }

/-- The live record set of the gap-fill move loop just before row `j` is
visited: the moves of rows 0 .. j-1 have already been applied.  This is the
state against which the source evaluates the branch-within-semester
emptiness mask for row `j`. -/
def gapPriorState (w0 : Nat) (hs : List Nat) (base : Nat) (s : List Row) (j : Nat) :
    List Row :=
  ((List.range j).foldl (gapFillStep w0 hs base) (s, 0)).1

theorem findValidAux_spec (w0 : Nat) (hs : List Nat) :
    ∀ fuel startD d, findValidAux w0 hs fuel startD = some d →
      isValidDay w0 hs d = true ∧ startD ≤ d ∧ d < startD + fuel ∧
        ∀ x, startD ≤ x → x < d → isValidDay w0 hs x = false := by
  intro fuel
  induction fuel with
  | zero => intro s d h; simp [findValidAux] at h
  | succ n ih =>
    intro s d h
    simp only [findValidAux] at h
    by_cases hv : isValidDay w0 hs s = true
    · simp [hv] at h
      subst h
      exact ⟨hv, le_refl _, by omega, fun x hx1 hx2 => by omega⟩
    · simp [hv] at h
      obtain ⟨h1, h2, h3, h4⟩ := ih (s + 1) d h
      refine ⟨h1, by omega, by omega, ?_⟩
      intro x hx1 hx2
      rcases Nat.eq_or_lt_of_le hx1 with rfl | hlt
      · simpa using hv
      · exact h4 x hlt hx2

theorem find_next_valid_day_in_range_spec (w0 : Nat) (hs : List Nat) (startD endD d : Nat)
    (h : find_next_valid_day_in_range w0 hs startD endD = some d) :
    isValidDay w0 hs d = true ∧ startD ≤ d ∧ d ≤ endD ∧
      ∀ x, startD ≤ x → x < d → isValidDay w0 hs x = false := by
  obtain ⟨h1, h2, h3, h4⟩ := findValidAux_spec w0 hs _ _ _ h
  exact ⟨h1, h2, by omega, h4⟩

theorem find_next_valid_day_for_electives_spec (w0 : Nat) (hs : List Nat) (startD d : Nat)
    (h : find_next_valid_day_for_electives w0 hs startD = some d) :
    isValidDay w0 hs d = true ∧ startD ≤ d ∧
      ∀ x, startD ≤ x → x < d → isValidDay w0 hs x = false := by
  obtain ⟨h1, h2, _, h4⟩ := findValidAux_spec w0 hs _ _ _ h
  exact ⟨h1, h2, h4⟩

/-- C7: given the maximum assigned non-elective date, elective day 1 is the
next valid day strictly after it and elective day 2 the next valid day
strictly after day 1; OE1/OE5 offerings are stamped with day 1 and the
morning slot, OE2 offerings with day 2 and the afternoon slot, and whenever
both days are scheduled day 2 is the nearest valid day strictly after
day 1. -/
theorem C7_elective_placement (w0 : Nat) (hs : List Nat) (dfEle : List Row) (maxD d1 d2 : Nat)
    (h1 : find_next_valid_day_for_electives w0 hs (maxD + 1) = some d1)
    (h2 : find_next_valid_day_for_electives w0 hs (d1 + 1) = some d2) :
    (isValidDay w0 hs d1 = true ∧ maxD < d1 ∧
      ∀ x, maxD < x → x < d1 → isValidDay w0 hs x = false) ∧
    (isValidDay w0 hs d2 = true ∧ d1 < d2 ∧
      ∀ x, d1 < x → x < d2 → isValidDay w0 hs x = false) ∧
    (∀ (i : Nat) (r : Row), dfEle[i]? = some r →
      (isOE15 r = true →
        (schedule_electives_globally w0 hs dfEle maxD)[i]? =
          some { r with examDate := ExamDate.assigned d1, timeSlot := some Slot.morning }) ∧
      (isOE2 r = true →
        (schedule_electives_globally w0 hs dfEle maxD)[i]? =
          some { r with examDate := ExamDate.assigned d2, timeSlot := some Slot.afternoon }) ∧
      (isOE15 r = false → isOE2 r = false →
        (schedule_electives_globally w0 hs dfEle maxD)[i]? = some r)) := by
  obtain ⟨hv1, hle1, hmin1⟩ := find_next_valid_day_for_electives_spec w0 hs _ _ h1
  obtain ⟨hv2, hle2, hmin2⟩ := find_next_valid_day_for_electives_spec w0 hs _ _ h2
  refine ⟨⟨hv1, by omega, fun x hx1 hx2 => hmin1 x (by omega) hx2⟩,
          ⟨hv2, by omega, fun x hx1 hx2 => hmin2 x (by omega) hx2⟩, ?_⟩
  intro i r hr
  have hmap : (schedule_electives_globally w0 hs dfEle maxD)[i]? =
      (dfEle[i]?).map (fun r =>
        if isOE15 r then { r with examDate := ExamDate.assigned d1, timeSlot := some Slot.morning }
        else if isOE2 r then { r with examDate := ExamDate.assigned d2, timeSlot := some Slot.afternoon }
        else r) := by
    simp only [schedule_electives_globally, h1, h2, dateFromOpt, List.getElem?_map]
  refine ⟨?_, ?_, ?_⟩
  · intro h15
    rw [hmap, hr]
    simp [h15]
  · intro h22
    have h15 : isOE15 r = false := by
      have hoe : r.oe = some 2 := by
        have := h22
        simp [isOE2] at this
        exact this
      simp [isOE15, hoe]
    rw [hmap, hr]
    simp [h15, h22]
  · intro h15 h22
    rw [hmap, hr]
    simp [h15, h22]

theorem C7_elective_placement_witness :
    find_next_valid_day_for_electives 0 [] (3 + 1) = some 4 ∧
    find_next_valid_day_for_electives 0 [] (4 + 1) = some 5 ∧
    (isValidDay 0 [] 4 = true ∧ 3 < 4 ∧ ∀ x, 3 < x → x < 4 → isValidDay 0 [] x = false) :=
  ⟨by decide, by decide,
    (C7_elective_placement 0 [] [sampleOE1Row] 3 4 5 (by decide) (by decide)).1⟩

/-- C8: when the computed elective day 2 exceeds the campaign end date the
elective rows are not stamped (the combined output is exactly the
non-elective schedule) and the infeasibility is reported as a distinct
non-fatal flag; when day 2 fits, the electives are stamped and appended. -/
theorem C8_elective_infeasibility (w0 : Nat) (hs : List Nat) (dfScheduled dfEle : List Row)
    (endDate maxD d1 d2 : Nat)
    (h1 : find_next_valid_day_for_electives w0 hs (maxD + 1) = some d1)
    (h2 : find_next_valid_day_for_electives w0 hs (d1 + 1) = some d2) :
    (endDate < d2 →
      handle_electives w0 hs dfScheduled dfEle endDate maxD = (dfScheduled, true)) ∧
    (d2 ≤ endDate →
      handle_electives w0 hs dfScheduled dfEle endDate maxD =
        (dfScheduled ++ schedule_electives_globally w0 hs dfEle maxD, false)) := by
  constructor
  · intro hgt
    simp [handle_electives, h1, h2, Nat.not_le.mpr hgt]
  · intro hle
    simp [handle_electives, h1, h2, hle]

theorem C8_elective_infeasibility_witness :
    find_next_valid_day_for_electives 0 [] (3 + 1) = some 4 ∧
    find_next_valid_day_for_electives 0 [] (4 + 1) = some 5 ∧ (4 : Nat) < 5 ∧
    handle_electives 0 [] [] [sampleOE1Row] 4 3 = ([], true) :=
  ⟨by decide, by decide, by decide,
    (C8_elective_infeasibility 0 [] [] [sampleOE1Row] 4 3 4 5 (by decide) (by decide)).1
      (by decide)⟩

theorem gapTarget_some (w0 : Nat) (hs : List Nat) (base : Nat) (st : List Row) (r : Row)
    (g : Nat) (h : gapTarget w0 hs base st r = some g) :
    gapRowEligible r = true ∧ ∃ d, r.examDate = ExamDate.assigned d ∧
      find_next_valid_day_in_range w0 hs base (d - 1) = some g ∧
      cohortBusyOn st r.semester r.branch g = false := by
  unfold gapTarget at h
  split at h
  · rename_i he
    split at h
    · rename_i d hdate
      split at h
      · rename_i g2 hfind
        split at h
        · exact absurd h (by simp)
        · rename_i hbusy
          have hg : g2 = g := by simpa using h
          subst hg
          exact ⟨he, d, hdate, hfind, by simpa using hbusy⟩
      · exact absurd h (by simp)
    · exact absurd h (by simp)
  · rename_i he
    exact absurd h (by simp)

theorem rget_getElem (s : List Row) (i : Nat) (h : i < s.length) :
    s[i]? = some (rget s i) := by
  rw [rget, List.getD_eq_getElem?_getD, List.getElem?_eq_getElem h]
  rfl

theorem gapFillStep_length (w0 : Nat) (hs : List Nat) (base : Nat) (acc : List Row × Nat)
    (i : Nat) : (gapFillStep w0 hs base acc i).1.length = acc.1.length := by
  unfold gapFillStep
  rcases h : gapTarget w0 hs base acc.1 (rget acc.1 i) with _ | g <;> simp [List.length_set]

theorem gapFillStep_get_ne (w0 : Nat) (hs : List Nat) (base : Nat) (acc : List Row × Nat)
    (i j : Nat) (hne : i ≠ j) :
    (gapFillStep w0 hs base acc i).1[j]? = acc.1[j]? := by
  unfold gapFillStep
  rcases h : gapTarget w0 hs base acc.1 (rget acc.1 i) with _ | g
  · rfl
  · simp [List.getElem?_set_ne hne]

theorem gapFillStep_get_self (w0 : Nat) (hs : List Nat) (base : Nat) (acc : List Row × Nat)
    (i : Nat) :
    (gapFillStep w0 hs base acc i).1[i]? = acc.1[i]? ∨
    ∃ r d g, acc.1[i]? = some r ∧ r.examDate = ExamDate.assigned d ∧
      r.commonAcrossSems = false ∧ r.isCommonYes = false ∧
      find_next_valid_day_in_range w0 hs base (d - 1) = some g ∧
      (gapFillStep w0 hs base acc i).1[i]? =
        some { r with examDate := ExamDate.assigned g } := by
  rcases hT : gapTarget w0 hs base acc.1 (rget acc.1 i) with _ | g
  · left
    unfold gapFillStep
    rw [hT]
  · obtain ⟨helig, d, hdate, hfind, _⟩ := gapTarget_some w0 hs base acc.1 _ g hT
    have hi : i < acc.1.length := by
      by_contra hge
      have hde : rget acc.1 i = default := by
        rw [rget, List.getD_eq_getElem?_getD, List.getElem?_eq_none (Nat.le_of_not_lt hge)]
        rfl
      have h0 : (default : Row).examDate = ExamDate.unassigned := rfl
      rw [hde, h0] at hdate
      exact ExamDate.noConfusion hdate
    right
    refine ⟨rget acc.1 i, d, g, rget_getElem acc.1 i hi, hdate, ?_, ?_, hfind, ?_⟩
    · revert helig
      unfold gapRowEligible
      cases (rget acc.1 i).commonAcrossSems <;> simp
    · revert helig
      unfold gapRowEligible
      cases (rget acc.1 i).isCommonYes <;> simp
    · unfold gapFillStep
      rw [hT]
      simp only
      rw [List.getElem?_set_self', rget_getElem acc.1 i hi]
      rfl

theorem gapFill_fold_untouched (w0 : Nat) (hs : List Nat) (base : Nat) :
    ∀ (l : List Nat) (acc : List Row × Nat) (j : Nat), j ∉ l →
      (l.foldl (gapFillStep w0 hs base) acc).1[j]? = acc.1[j]? := by
  intro l
  induction l with
  | nil => intro acc j _; rfl
  | cons i rest ih =>
    intro acc j hj
    have hji : i ≠ j := fun h => hj (h ▸ List.mem_cons_self i rest)
    have hjr : j ∉ rest := fun h => hj (List.mem_cons_of_mem i h)
    calc ((i :: rest).foldl (gapFillStep w0 hs base) acc).1[j]?
        = ((rest.foldl (gapFillStep w0 hs base) (gapFillStep w0 hs base acc i))).1[j]? := rfl
      _ = (gapFillStep w0 hs base acc i).1[j]? := ih _ j hjr
      _ = acc.1[j]? := gapFillStep_get_ne w0 hs base acc i j hji

theorem gapFill_fold_pointwise (w0 : Nat) (hs : List Nat) (base : Nat) :
    ∀ (l : List Nat), l.Nodup → ∀ (acc : List Row × Nat) (j : Nat),
      (l.foldl (gapFillStep w0 hs base) acc).1[j]? = acc.1[j]? ∨
      ∃ r d g, acc.1[j]? = some r ∧ r.examDate = ExamDate.assigned d ∧
        r.commonAcrossSems = false ∧ r.isCommonYes = false ∧
        find_next_valid_day_in_range w0 hs base (d - 1) = some g ∧
        (l.foldl (gapFillStep w0 hs base) acc).1[j]? =
          some { r with examDate := ExamDate.assigned g } := by
  intro l
  induction l with
  | nil => intro _ acc j; left; rfl
  | cons i rest ih =>
    intro hnd acc j
    have hirest : i ∉ rest := (List.nodup_cons.mp hnd).1
    have hndr : rest.Nodup := (List.nodup_cons.mp hnd).2
    by_cases hji : j = i
    · subst hji
      have hfix : ((j :: rest).foldl (gapFillStep w0 hs base) acc).1[j]? =
          (gapFillStep w0 hs base acc j).1[j]? := by
        calc ((j :: rest).foldl (gapFillStep w0 hs base) acc).1[j]?
            = (rest.foldl (gapFillStep w0 hs base) (gapFillStep w0 hs base acc j)).1[j]? := rfl
          _ = (gapFillStep w0 hs base acc j).1[j]? :=
              gapFill_fold_untouched w0 hs base rest _ j hirest
      rcases gapFillStep_get_self w0 hs base acc j with h | ⟨r, d, g, h1, h2, h3, h4, h5, h6⟩
      · left; rw [hfix, h]
      · right; exact ⟨r, d, g, h1, h2, h3, h4, h5, by rw [hfix, h6]⟩
    · have hstep : (gapFillStep w0 hs base acc i).1[j]? = acc.1[j]? :=
        gapFillStep_get_ne w0 hs base acc i j (fun h => hji h.symm)
      rcases ih hndr (gapFillStep w0 hs base acc i) j with h | ⟨r, d, g, h1, h2, h3, h4, h5, h6⟩
      · left
        calc ((i :: rest).foldl (gapFillStep w0 hs base) acc).1[j]?
            = (rest.foldl (gapFillStep w0 hs base) (gapFillStep w0 hs base acc i)).1[j]? := rfl
          _ = (gapFillStep w0 hs base acc i).1[j]? := h
          _ = acc.1[j]? := hstep
      · right
        exact ⟨r, d, g, hstep ▸ h1, h2, h3, h4, h5, h6⟩

theorem le_listMax {x : Nat} : ∀ {l : List Nat}, x ∈ l → x ≤ listMax l := by
  intro l
  induction l with
  | nil => intro h; cases h
  | cons a t ih =>
    intro h
    rcases List.mem_cons.mp h with rfl | h2
    · exact Nat.le_max_left _ _
    · exact Nat.le_trans (ih h2) (Nat.le_max_right _ _)

theorem listMax_le {b : Nat} : ∀ {l : List Nat}, (∀ x ∈ l, x ≤ b) → listMax l ≤ b := by
  intro l
  induction l with
  | nil => intro _; exact Nat.zero_le b
  | cons a t ih =>
    intro h
    exact Nat.max_le.mpr ⟨h a (List.mem_cons_self a t),
      ih (fun x hx => h x (List.mem_cons_of_mem a hx))⟩

/-- Pointwise description of `optimize_schedule_by_filling_gaps`: every
offering either keeps its `Exam Date` cell, or is an unflagged dated row
relocated exactly to the single earliest valid day on or after the
campaign start (and strictly before its own date). -/
theorem gapFill_pointwise_s (w0 : Nat) (hs : List Nat) (base endDate : Nat) (s : List Row)
    (j : Nat) :
    (optimize_schedule_by_filling_gaps w0 hs base endDate s).1[j]? = s[j]? ∨
    ∃ r d g, s[j]? = some r ∧ r.examDate = ExamDate.assigned d ∧
      r.commonAcrossSems = false ∧ r.isCommonYes = false ∧
      find_next_valid_day_in_range w0 hs base (d - 1) = some g ∧
      (optimize_schedule_by_filling_gaps w0 hs base endDate s).1[j]? =
        some { r with examDate := ExamDate.assigned g } := by
  unfold optimize_schedule_by_filling_gaps
  split
  · left; rfl
  · exact gapFill_fold_pointwise w0 hs base (List.range s.length) (List.nodup_range s.length)
      (s, 0) j


/-- C5 counterexample: the cohort of the day-9 unit is idle on the valid
day 2 (the earliest idle valid day strictly before day 9, since day 1 is
taken), yet the optimizer leaves the unit on day 9: it only ever probes
day 1, finds the cohort busy there, and gives up instead of relocating the
unit to day 2 as the claim requires. -/
theorem C5_gapfill_counterexample :
    isValidDay 0 [] 2 = true ∧
    cohortBusyOn c5Input 1 1 2 = false ∧
    cohortBusyOn c5Input 1 1 1 = true ∧
    (optimize_schedule_by_filling_gaps 0 [] 1 30 c5Input).1[1]? = some c5RowU := by
  decide

/-- C6 counterexample: the input occupies days 5 and 9 (span 5); gap fill
moves the unflagged day-5 unit to day 1, before the previous first exam,
while the common day-9 unit stays, so the output occupies days 1 and 9
(span 9) — the overall date span grew. -/
theorem C6_span_counterexample :
    ¬ (scheduleSpan (optimize_schedule_by_filling_gaps 0 [] 1 30 c6Input).1 ≤
        scheduleSpan c6Input) := by
  decide

/-- C6 (amended): gap fill never increases the *last* assigned date — every
move is to a strictly earlier day — but the span itself can grow, because a
unit may move before the previously first assigned date (see the
counterexample). -/
theorem C6_gapfill_last_date_monotone (w0 : Nat) (hs : List Nat) (base endDate : Nat)
    (s : List Row) :
    lastAssignedDate (optimize_schedule_by_filling_gaps w0 hs base endDate s).1 ≤
      lastAssignedDate s := by
  apply listMax_le
  intro x hx
  obtain ⟨r2, hr2mem, hf⟩ := List.mem_filterMap.mp hx
  obtain ⟨j, hj⟩ := List.mem_iff_getElem?.mp hr2mem
  rcases gapFill_pointwise_s w0 hs base endDate s j with h | ⟨r, d, g, h1, h2, _, _, h5, h6⟩
  · have hrs : r2 ∈ s := List.mem_iff_getElem?.mpr ⟨j, by rw [← h, hj]⟩
    exact le_listMax (List.mem_filterMap.mpr ⟨r2, hrs, hf⟩)
  · have hr2 : r2 = { r with examDate := ExamDate.assigned g } := by
      rw [hj] at h6
      exact Option.some_injective _ h6
    have hxg : x = g := by
      rw [hr2] at hf
      simpa using hf.symm
    have hrs : r ∈ s := List.mem_iff_getElem?.mpr ⟨j, h1⟩
    have hd : d ∈ datesOf s := List.mem_filterMap.mpr ⟨r, hrs, by rw [h2]⟩
    have hgle : g ≤ d - 1 := (find_next_valid_day_in_range_spec w0 hs base (d - 1) g h5).2.2.1
    calc x = g := hxg
      _ ≤ d := by omega
      _ ≤ listMax (datesOf s) := le_listMax hd

theorem rget_eq_getElem (s : List Row) (j : Nat) : rget s j = (s[j]?).getD default := by
  rw [rget, List.getD_eq_getElem?_getD]

theorem stampRowsGo_length (idxs : List Nat) (d : Nat) (sl : Slot) :
    ∀ (l : List Row) (i0 : Nat), (stampRowsGo idxs d sl i0 l).length = l.length := by
  intro l
  induction l with
  | nil => intro i0; rfl
  | cons r t ih => intro i0; simp [stampRowsGo, ih]

theorem stampRows_length (df : List Row) (idxs : List Nat) (d : Nat) (sl : Slot) :
    (stampRows df idxs d sl).length = df.length :=
  stampRowsGo_length idxs d sl df 0

theorem stampRowsGo_getElem (idxs : List Nat) (d : Nat) (sl : Slot) :
    ∀ (l : List Row) (i0 j : Nat),
      (stampRowsGo idxs d sl i0 l)[j]? = (l[j]?).map (fun r =>
        if (i0 + j) ∈ idxs then { r with examDate := ExamDate.assigned d, timeSlot := some sl }
        else r) := by
  intro l
  induction l with
  | nil => intro i0 j; simp [stampRowsGo]
  | cons r t ih =>
    intro i0 j
    cases j with
    | zero => simp [stampRowsGo]
    | succ j2 =>
      have harith : i0 + (j2 + 1) = (i0 + 1) + j2 := by omega
      simp only [stampRowsGo, List.getElem?_cons_succ, ih (i0 + 1) j2, harith]

theorem stampRows_getElem (df : List Row) (idxs : List Nat) (d : Nat) (sl : Slot) (j : Nat) :
    (stampRows df idxs d sl)[j]? = (df[j]?).map (fun r =>
      if j ∈ idxs then { r with examDate := ExamDate.assigned d, timeSlot := some sl }
      else r) := by
  have h := stampRowsGo_getElem idxs d sl df 0 j
  simpa using h

theorem rget_stampRows_mem (df : List Row) (idxs : List Nat) (d : Nat) (sl : Slot) (j : Nat)
    (hj : j < df.length) (hmem : j ∈ idxs) :
    rget (stampRows df idxs d sl) j =
      { rget df j with examDate := ExamDate.assigned d, timeSlot := some sl } := by
  rw [rget_eq_getElem, stampRows_getElem, List.getElem?_eq_getElem hj]
  simp [hmem, rget_eq_getElem, List.getElem?_eq_getElem hj]

theorem rget_stampRows_not (df : List Row) (idxs : List Nat) (d : Nat) (sl : Slot) (j : Nat)
    (hmem : j ∉ idxs) :
    rget (stampRows df idxs d sl) j = rget df j := by
  rw [rget_eq_getElem, stampRows_getElem, rget_eq_getElem]
  rcases h : df[j]? with _ | r
  · rfl
  · simp [hmem]

theorem rget_stampRows_ge (df : List Row) (idxs : List Nat) (d : Nat) (sl : Slot) (j : Nat)
    (hj : df.length ≤ j) :
    rget (stampRows df idxs d sl) j = rget df j := by
  rw [rget_eq_getElem, stampRows_getElem, rget_eq_getElem, List.getElem?_eq_none hj]
  rfl

theorem StaticSame_refl (df : List Row) : StaticSame df df :=
  ⟨rfl, fun _ => ⟨rfl, rfl, rfl, rfl, rfl, rfl, rfl, rfl⟩⟩

theorem StaticSame_stamp (df0 sdf : List Row) (idxs : List Nat) (d : Nat) (sl : Slot)
    (h : StaticSame df0 sdf) : StaticSame df0 (stampRows sdf idxs d sl) := by
  constructor
  · rw [h.1, stampRows_length]
  · intro j
    by_cases hj : j < sdf.length
    · by_cases hmem : j ∈ idxs
      · rw [rget_stampRows_mem sdf idxs d sl j hj hmem]
        exact h.2 j
      · rw [rget_stampRows_not sdf idxs d sl j hmem]
        exact h.2 j
    · rw [rget_stampRows_ge sdf idxs d sl j (Nat.le_of_not_lt hj)]
      exact h.2 j

theorem cohort_static (df0 sdf : List Row) (j : Nat) (h : StaticSame df0 sdf) :
    cohortOf (rget sdf j) = cohortOf (rget df0 j) := by
  have hj := h.2 j
  unfold cohortOf
  rw [hj.2.2.1, hj.2.2.2.1]

theorem map_congr_mem {α β : Type} (f g : α → β) :
    ∀ (l : List α), (∀ x ∈ l, f x = g x) → l.map f = l.map g := by
  intro l
  induction l with
  | nil => intro _; rfl
  | cons a t ih =>
    intro h
    simp only [List.map_cons]
    rw [h a (List.mem_cons_self a t), ih (fun x hx => h x (List.mem_cons_of_mem a hx))]

theorem unitTotal_static (df0 sdf : List Row) (u : AtomicUnit) (h : StaticSame df0 sdf) :
    unitTotalStudents sdf u = unitTotalStudents df0 u := by
  unfold unitTotalStudents
  congr 1
  exact map_congr_mem _ _ u.allRows (fun i _ => (h.2 i).2.1)

theorem CapBounded_empty (MAX : Nat) : CapBounded MAX emptyCap :=
  fun _ _ => Nat.zero_le MAX

theorem CapBounded_add (MAX : Nat) (c : Cap) (d : Nat) (sl : Slot) (n : Nat)
    (hb : CapBounded MAX c) (hfit : c d sl + n ≤ MAX) :
    CapBounded MAX (add_to_session_capacity c d sl n) := by
  intro d2 s2
  unfold add_to_session_capacity
  split
  · rename_i hh
    rcases hh with ⟨rfl, rfl⟩
    exact hfit
  · exact hb d2 s2

theorem chooseSlot_fits (MAX : Nat) (cap : Cap) (d : Nat) (pref : Slot) (total : Nat)
    (sl : Slot) (h : chooseSlotWithCapacity MAX cap d pref total = some sl) :
    cap d sl + total ≤ MAX := by
  unfold chooseSlotWithCapacity at h
  split at h
  · rename_i h1
    have : pref = sl := by simpa using h
    subst this
    exact of_decide_eq_true h1
  · split at h
    · rename_i h2
      have : altSlot pref = sl := by simpa using h
      subst this
      exact of_decide_eq_true h2
    · exact absurd h (by simp)

theorem chooseSlot_total_le (MAX : Nat) (cap : Cap) (d : Nat) (pref : Slot) (total : Nat)
    (sl : Slot) (h : chooseSlotWithCapacity MAX cap d pref total = some sl) :
    total ≤ MAX := by
  have := chooseSlot_fits MAX cap d pref total sl h
  omega

theorem chooseSlot_none_of_unfit (MAX : Nat) (cap : Cap) (d : Nat) (pref : Slot) (total : Nat)
    (h1 : can_fit_in_session MAX cap d pref total = false)
    (h2 : can_fit_in_session MAX cap d (altSlot pref) total = false) :
    chooseSlotWithCapacity MAX cap d pref total = none := by
  unfold chooseSlotWithCapacity
  rw [h1, h2]
  rfl

theorem markUsed_mem_mono (m : Daily) (d : Nat) (bs : List (Nat × Nat)) (d2 : Nat)
    (x : Nat × Nat) (h : x ∈ m d2) : x ∈ markUsed m d bs d2 := by
  unfold markUsed
  split
  · rename_i he
    subst he
    exact List.mem_append_right _ h
  · exact h

theorem markUsed_mem_new (m : Daily) (d : Nat) (bs : List (Nat × Nat)) (x : Nat × Nat)
    (h : x ∈ bs) : x ∈ markUsed m d bs d := by
  unfold markUsed
  simp [h]

theorem mkAtomicUnit_from (df : List Row) (c : Nat) : UnitFromDf df (mkAtomicUnit df c) :=
  ⟨rfl, rfl, rfl⟩

theorem buildAtomicUnits_from (df : List Row) :
    ∀ u ∈ buildAtomicUnits df, UnitFromDf df u := by
  intro u hu
  obtain ⟨c, _, rfl⟩ := List.mem_map.mp hu
  exact mkAtomicUnit_from df c

theorem insertDescUnit_mem (u : AtomicUnit) :
    ∀ (l : List AtomicUnit) (v : AtomicUnit), v ∈ insertDescUnit u l → v = u ∨ v ∈ l := by
  intro l
  induction l with
  | nil =>
    intro v hv
    simp [insertDescUnit] at hv
    exact Or.inl hv
  | cons w t ih =>
    intro v hv
    simp only [insertDescUnit] at hv
    split at hv
    · rcases List.mem_cons.mp hv with rfl | hv2
      · exact Or.inr (List.mem_cons_self _ _)
      · rcases ih v hv2 with h | h
        · exact Or.inl h
        · exact Or.inr (List.mem_cons_of_mem _ h)
    · rcases List.mem_cons.mp hv with rfl | hv2
      · exact Or.inl rfl
      · exact Or.inr hv2

theorem sortUnitsDesc_mem :
    ∀ (l : List AtomicUnit) (v : AtomicUnit), v ∈ sortUnitsDesc l → v ∈ l := by
  intro l
  induction l with
  | nil => intro v hv; exact absurd hv (by simp [sortUnitsDesc])
  | cons u t ih =>
    intro v hv
    simp only [sortUnitsDesc] at hv
    rcases insertDescUnit_mem u (sortUnitsDesc t) v hv with rfl | h
    · exact List.mem_cons_self _ _
    · exact List.mem_cons_of_mem _ (ih v h)

theorem masterQueue_mem (units : List AtomicUnit) (v : AtomicUnit)
    (h : v ∈ masterQueue units) : v ∈ units := by
  unfold masterQueue at h
  simp only [List.mem_append] at h
  rcases h with ((h | h) | h) | h <;>
    exact sortUnitsDesc_mem units v (List.mem_filter.mp h).1

theorem unitRows_facts (df0 : List Row) (c i : Nat) (h : i ∈ unitRowsOfCode df0 c) :
    i < df0.length ∧ eligibleRow (rget df0 i) = true ∧ (rget df0 i).moduleCode = c := by
  unfold unitRowsOfCode at h
  have h1 := List.mem_filter.mp h
  unfold eligibleIdx at h1
  have h2 := List.mem_filter.mp h1.1
  exact ⟨List.mem_range.mp h2.1, h2.2, by simpa using h1.2⟩

theorem unit_cohort_mem (df0 : List Row) (u : AtomicUnit) (i : Nat) (hu : UnitFromDf df0 u)
    (h : i ∈ u.allRows) : cohortOf (rget df0 i) ∈ u.branchSems := by
  rw [hu.1] at h
  rw [hu.2.1]
  exact List.mem_dedup.mpr (List.mem_map.mpr ⟨i, h, rfl⟩)

theorem freq_one_branchSems (df0 : List Row) (u : AtomicUnit) (hu : UnitFromDf df0 u)
    (h : u.frequency = 1) : u.branchSems = [u.branchSems.headD (0, 0)] := by
  have hlen : u.branchSems.length = 1 := by rw [← hu.2.2, h]
  rcases hl : u.branchSems with _ | ⟨b, t⟩
  · rw [hl] at hlen; simp at hlen
  · rcases t with _ | ⟨b2, t2⟩
    · simp
    · rw [hl] at hlen; simp at hlen

theorem any_cohort_false (bs dl : List (Nat × Nat))
    (h : (bs.any (fun b => decide (b ∈ dl))) = false) : ∀ b ∈ bs, b ∉ dl := by
  rw [List.any_eq_false] at h
  intro b hb
  have := h b hb
  simpa using this

theorem sharesAssigned_left (a : Nat) (e : ExamDate)
    (h : sharesAssignedDate (ExamDate.assigned a) e = true) : e = ExamDate.assigned a := by
  cases e with
  | unassigned => simp [sharesAssignedDate] at h
  | assigned b =>
    simp [sharesAssignedDate] at h
    exact congrArg ExamDate.assigned h.symm
  | outOfRange => simp [sharesAssignedDate] at h

theorem sharesAssigned_right (a : Nat) (e : ExamDate)
    (h : sharesAssignedDate e (ExamDate.assigned a) = true) : e = ExamDate.assigned a := by
  cases e with
  | unassigned => simp [sharesAssignedDate] at h
  | assigned b =>
    simp [sharesAssignedDate] at h
    exact congrArg ExamDate.assigned h
  | outOfRange => simp [sharesAssignedDate] at h

theorem rget_mem (s : List Row) (j : Nat) (hj : j < s.length) : rget s j ∈ s := by
  rw [rget_eq_getElem, List.getElem?_eq_getElem hj]
  exact List.getElem_mem hj

theorem SchedInv_init (df : List Row) (MAX : Nat)
    (hinit : ∀ r ∈ df, r.examDate = ExamDate.unassigned) :
    SchedInv df MAX { df := df, cap := emptyCap, daily := emptyDaily } := by
  refine ⟨StaticSame_refl df, CapBounded_empty MAX, ?_, ?_, ?_⟩
  · intro j hj _ _
    exact hinit _ (rget_mem df j hj)
  · intro j d hj hdate
    rw [hinit _ (rget_mem df j hj)] at hdate
    cases hdate
  · intro i hi j hj hne hoei hoej hcoh hshare
    rw [hinit _ (rget_mem df i hi)] at hshare
    simp [sharesAssignedDate] at hshare

/-- Invariant preservation by one successful placement (common to the
direct pass, the daily gap-fill pass and the extended pass). -/
theorem place_inv (df0 : List Row) (MAX : Nat) (st : SchedState) (u : AtomicUnit)
    (d : Nat) (sl pref : Slot) (hInv : SchedInv df0 MAX st) (hu : UnitFromDf df0 u)
    (hconf : ∀ b ∈ u.branchSems, b ∉ st.daily d)
    (hchoose : chooseSlotWithCapacity MAX st.cap d pref (unitTotalStudents st.df u) = some sl) :
    SchedInv df0 MAX { df := stampRows st.df u.allRows d sl,
                       cap := add_to_session_capacity st.cap d sl (unitTotalStudents st.df u),
                       daily := markUsed st.daily d u.branchSems } := by
  obtain ⟨hStatic, hCap, hBad, hDaily, hClash⟩ := hInv
  refine ⟨StaticSame_stamp df0 st.df u.allRows d sl hStatic, ?_, ?_, ?_, ?_⟩
  · exact CapBounded_add MAX st.cap d sl _ hCap (chooseSlot_fits MAX st.cap d pref _ sl hchoose)
  · intro j hj helig hbig
    dsimp only at hbig ⊢
    by_cases hmem : j ∈ u.allRows
    · exfalso
      have hfacts := unitRows_facts df0 u.moduleCode j (by rw [← hu.1]; exact hmem)
      have htot : unitTotalStudents st.df u = unitGroupTotal df0 u.moduleCode := by
        rw [unitTotal_static df0 st.df u hStatic]
        unfold unitTotalStudents unitGroupTotal
        rw [hu.1]
      have hle := chooseSlot_total_le MAX st.cap d pref _ sl hchoose
      rw [htot] at hle
      rw [hfacts.2.2] at hbig
      omega
    · rw [rget_stampRows_not st.df u.allRows d sl j hmem]
      exact hBad j hj helig hbig
  · intro j d2 hj hdate
    dsimp only at hdate ⊢
    by_cases hmem : j ∈ u.allRows
    · have hjlen : j < st.df.length := by rw [← hStatic.1]; exact hj
      rw [rget_stampRows_mem st.df u.allRows d sl j hjlen hmem] at hdate
      have hd : d = d2 := by simpa using hdate
      subst hd
      exact markUsed_mem_new st.daily d u.branchSems _ (unit_cohort_mem df0 u j hu hmem)
    · rw [rget_stampRows_not st.df u.allRows d sl j hmem] at hdate
      exact markUsed_mem_mono st.daily d u.branchSems d2 _ (hDaily j d2 hj hdate)
  · intro i hi j hj hne hoei hoej hcoh hshare
    dsimp only at hi hj hoei hoej hcoh hshare ⊢
    have hlen : (stampRows st.df u.allRows d sl).length = st.df.length :=
      stampRows_length st.df u.allRows d sl
    have hi2 : i < st.df.length := by rw [← hlen]; exact hi
    have hj2 : j < st.df.length := by rw [← hlen]; exact hj
    have hi0 : i < df0.length := by rw [hStatic.1]; exact hi2
    have hj0 : j < df0.length := by rw [hStatic.1]; exact hj2
    by_cases hmi : i ∈ u.allRows <;> by_cases hmj : j ∈ u.allRows
    · rw [rget_stampRows_mem st.df u.allRows d sl i hi2 hmi,
          rget_stampRows_mem st.df u.allRows d sl j hj2 hmj]
      show (rget st.df i).moduleCode = (rget st.df j).moduleCode
      rw [(hStatic.2 i).1, (hStatic.2 j).1,
          (unitRows_facts df0 u.moduleCode i (by rw [← hu.1]; exact hmi)).2.2,
          (unitRows_facts df0 u.moduleCode j (by rw [← hu.1]; exact hmj)).2.2]
    · exfalso
      rw [rget_stampRows_mem st.df u.allRows d sl i hi2 hmi,
          rget_stampRows_not st.df u.allRows d sl j hmj] at hshare hcoh
      have hdj : (rget st.df j).examDate = ExamDate.assigned d :=
        sharesAssigned_left d _ (by simpa using hshare)
      have hjdaily := hDaily j d hj0 hdj
      have hcohj : cohortOf (rget df0 i) = cohortOf (rget df0 j) := by
        have h1 : cohortOf { rget st.df i with
            examDate := ExamDate.assigned d, timeSlot := some sl } = cohortOf (rget st.df i) := rfl
        rw [h1, cohort_static df0 st.df i hStatic, cohort_static df0 st.df j hStatic] at hcoh
        exact hcoh
      have hmemB := unit_cohort_mem df0 u i hu hmi
      rw [hcohj] at hmemB
      exact hconf _ hmemB hjdaily
    · exfalso
      rw [rget_stampRows_not st.df u.allRows d sl i hmi,
          rget_stampRows_mem st.df u.allRows d sl j hj2 hmj] at hshare hcoh
      have hdi : (rget st.df i).examDate = ExamDate.assigned d :=
        sharesAssigned_right d _ (by simpa using hshare)
      have hidaily := hDaily i d hi0 hdi
      have hcohj : cohortOf (rget df0 i) = cohortOf (rget df0 j) := by
        have h1 : cohortOf { rget st.df j with
            examDate := ExamDate.assigned d, timeSlot := some sl } = cohortOf (rget st.df j) := rfl
        rw [h1, cohort_static df0 st.df i hStatic, cohort_static df0 st.df j hStatic] at hcoh
        exact hcoh
      have hmemB := unit_cohort_mem df0 u j hu hmj
      rw [← hcohj] at hmemB
      exact hconf _ hmemB hidaily
    · rw [rget_stampRows_not st.df u.allRows d sl i hmi] at hoei hcoh hshare ⊢
      rw [rget_stampRows_not st.df u.allRows d sl j hmj] at hoej hcoh hshare ⊢
      exact hClash i hi2 j hj2 hne hoei hoej hcoh hshare

theorem keepQueue (df0 : List Row) (ks : List AtomicUnit) (u : AtomicUnit)
    (hQ : ∀ w ∈ ks, UnitFromDf df0 w) (hu : UnitFromDf df0 u) :
    ∀ v ∈ ks ++ [u], UnitFromDf df0 v := by
  intro v hv
  rcases List.mem_append.mp hv with h | h
  · exact hQ v h
  · rw [List.mem_singleton.mp h]
    exact hu

theorem phaseAStep_inv (df0 : List Row) (MAX d : Nat) (acc : SchedState × List AtomicUnit)
    (u : AtomicUnit) (hInv : SchedInv df0 MAX acc.1) (hQ : ∀ v ∈ acc.2, UnitFromDf df0 v)
    (hu : UnitFromDf df0 u) :
    SchedInv df0 MAX (phaseAStep MAX d acc u).1 ∧
      ∀ v ∈ (phaseAStep MAX d acc u).2, UnitFromDf df0 v := by
  unfold phaseAStep
  dsimp only
  split
  · exact ⟨hInv, keepQueue df0 acc.2 u hQ hu⟩
  · rename_i hconf
    split
    · exact ⟨hInv, keepQueue df0 acc.2 u hQ hu⟩
    · rcases hch : chooseSlotWithCapacity MAX acc.1.cap d
          (get_preferred_slot (listMax u.uniqueSemesters)) (unitTotalStudents acc.1.df u)
          with _ | sl
      · simp only [hch]
        exact ⟨hInv, keepQueue df0 acc.2 u hQ hu⟩
      · simp only [hch]
        refine ⟨?_, hQ⟩
        exact place_inv df0 MAX acc.1 u d sl _ hInv hu
          (any_cohort_false u.branchSems (acc.1.daily d) (by simpa using hconf)) hch

theorem phaseBStep_inv (df0 : List Row) (MAX : Nat) (allBS : List (Nat × Nat)) (d : Nat)
    (acc : SchedState × List AtomicUnit) (u : AtomicUnit) (hInv : SchedInv df0 MAX acc.1)
    (hQ : ∀ v ∈ acc.2, UnitFromDf df0 v) (hu : UnitFromDf df0 u) :
    SchedInv df0 MAX (phaseBStep MAX allBS d acc u).1 ∧
      ∀ v ∈ (phaseBStep MAX allBS d acc u).2, UnitFromDf df0 v := by
  unfold phaseBStep
  dsimp only
  split
  · rename_i hfreq
    split
    · rename_i hguard
      have hfreq1 : u.frequency = 1 := by simpa using hfreq
      have hbs : u.branchSems = [u.branchSems.headD (0, 0)] :=
        freq_one_branchSems df0 u hu hfreq1
      have hnotin : u.branchSems.headD (0, 0) ∉ acc.1.daily d := by
        have h2 := (Bool.and_eq_true _ _).mp hguard
        have h3 : decide (u.branchSems.headD (0, 0) ∈ acc.1.daily d) = false := by
          simpa using h2.2
        simpa using h3
      rcases hch : chooseSlotWithCapacity MAX acc.1.cap d
          (get_preferred_slot (u.uniqueSemesters.headD 0)) (unitTotalStudents acc.1.df u)
          with _ | sl
      · simp only [hch]
        exact ⟨hInv, keepQueue df0 acc.2 u hQ hu⟩
      · simp only [hch]
        refine ⟨?_, hQ⟩
        have hconf2 : ∀ b ∈ u.branchSems, b ∉ acc.1.daily d := by
          intro b hb
          rw [hbs] at hb
          rw [List.mem_singleton.mp hb]
          exact hnotin
        have hplace := place_inv df0 MAX acc.1 u d sl _ hInv hu hconf2 hch
        rw [hbs] at hplace
        exact hplace
    · exact ⟨hInv, keepQueue df0 acc.2 u hQ hu⟩
  · exact ⟨hInv, keepQueue df0 acc.2 u hQ hu⟩

theorem phaseExtStep_inv (df0 : List Row) (MAX d : Nat) (acc : SchedState × List AtomicUnit)
    (u : AtomicUnit) (hInv : SchedInv df0 MAX acc.1) (hQ : ∀ v ∈ acc.2, UnitFromDf df0 v)
    (hu : UnitFromDf df0 u) :
    SchedInv df0 MAX (phaseExtStep MAX d acc u).1 ∧
      ∀ v ∈ (phaseExtStep MAX d acc u).2, UnitFromDf df0 v := by
  unfold phaseExtStep
  dsimp only
  split
  · exact ⟨hInv, keepQueue df0 acc.2 u hQ hu⟩
  · rename_i hconf
    rcases hch : chooseSlotWithCapacity MAX acc.1.cap d
        (get_preferred_slot (u.uniqueSemesters.headD 0)) (unitTotalStudents acc.1.df u)
        with _ | sl
    · simp only [hch]
      exact ⟨hInv, keepQueue df0 acc.2 u hQ hu⟩
    · simp only [hch]
      refine ⟨?_, hQ⟩
      exact place_inv df0 MAX acc.1 u d sl _ hInv hu
        (any_cohort_false u.branchSems (acc.1.daily d) (by simpa using hconf)) hch

theorem foldl_units_inv (df0 : List Row) (MAX : Nat)
    (step : (SchedState × List AtomicUnit) → AtomicUnit → SchedState × List AtomicUnit)
    (hstep : ∀ acc u, SchedInv df0 MAX acc.1 → (∀ v ∈ acc.2, UnitFromDf df0 v) →
      UnitFromDf df0 u →
      SchedInv df0 MAX (step acc u).1 ∧ ∀ v ∈ (step acc u).2, UnitFromDf df0 v) :
    ∀ (l : List AtomicUnit) (acc : SchedState × List AtomicUnit),
      SchedInv df0 MAX acc.1 → (∀ v ∈ acc.2, UnitFromDf df0 v) →
      (∀ v ∈ l, UnitFromDf df0 v) →
      SchedInv df0 MAX (l.foldl step acc).1 ∧
        ∀ v ∈ (l.foldl step acc).2, UnitFromDf df0 v := by
  intro l
  induction l with
  | nil => intro acc h1 h2 _; exact ⟨h1, h2⟩
  | cons u t ih =>
    intro acc h1 h2 hl
    have hstep1 := hstep acc u h1 h2 (hl u (List.mem_cons_self u t))
    exact ih (step acc u) hstep1.1 hstep1.2 (fun v hv => hl v (List.mem_cons_of_mem u hv))

theorem runMainDays_inv (w0 : Nat) (hs : List Nat) (endD MAX : Nat)
    (allBS : List (Nat × Nat)) (df0 : List Row) :
    ∀ (fuel cur day : Nat) (st : SchedState) (queue : List AtomicUnit),
      SchedInv df0 MAX st → (∀ v ∈ queue, UnitFromDf df0 v) →
      SchedInv df0 MAX (runMainDays w0 hs endD MAX allBS fuel cur day st queue).1 ∧
        ∀ v ∈ (runMainDays w0 hs endD MAX allBS fuel cur day st queue).2.1,
          UnitFromDf df0 v := by
  intro fuel
  induction fuel with
  | zero => intro cur day st queue h1 h2; exact ⟨h1, h2⟩
  | succ n ih =>
    intro cur day st queue h1 h2
    unfold runMainDays
    split
    · exact ⟨h1, h2⟩
    · rcases hfind : find_next_valid_day_in_range w0 hs cur endD with _ | d
      · simp only [hfind]
        exact ⟨h1, h2⟩
      · simp only [hfind]
        have hA := foldl_units_inv df0 MAX (phaseAStep MAX d)
          (fun acc u => phaseAStep_inv df0 MAX d acc u) queue (st, []) h1
          (by intro v hv; cases hv) h2
        have hB := foldl_units_inv df0 MAX (phaseBStep MAX allBS d)
          (fun acc u => phaseBStep_inv df0 MAX allBS d acc u)
          (runPhaseA MAX d st queue).2 ((runPhaseA MAX d st queue).1, [])
          hA.1 (by intro v hv; cases hv) hA.2
        exact ih (d + 1) (day + 1) _ _ hB.1 hB.2

theorem runExtendedDays_inv (w0 : Nat) (hs : List Nat) (endD MAX : Nat) (df0 : List Row) :
    ∀ (fuel cur : Nat) (st : SchedState) (queue : List AtomicUnit),
      SchedInv df0 MAX st → (∀ v ∈ queue, UnitFromDf df0 v) →
      SchedInv df0 MAX (runExtendedDays w0 hs endD MAX fuel cur st queue).1 ∧
        ∀ v ∈ (runExtendedDays w0 hs endD MAX fuel cur st queue).2, UnitFromDf df0 v := by
  intro fuel
  induction fuel with
  | zero => intro cur st queue h1 h2; exact ⟨h1, h2⟩
  | succ n ih =>
    intro cur st queue h1 h2
    unfold runExtendedDays
    split
    · exact ⟨h1, h2⟩
    · rcases hfind : find_next_valid_day_in_range w0 hs cur endD with _ | d
      · simp only [hfind]
        exact ⟨h1, h2⟩
      · simp only [hfind]
        have hE := foldl_units_inv df0 MAX (phaseExtStep MAX d)
          (fun acc u => phaseExtStep_inv df0 MAX d acc u) queue (st, []) h1
          (by intro v hv; cases hv) h2
        exact ih (d + 1) _ _ hE.1 hE.2

/-- The scheduler's end-to-end invariant, from an all-unassigned record
set. -/
theorem schedule_all_inv (w0 : Nat) (hs : List Nat) (base endD MAX : Nat) (df : List Row)
    (hinit : ∀ r ∈ df, r.examDate = ExamDate.unassigned) :
    SchedInv df MAX (schedule_all_subjects_comprehensively w0 hs base endD MAX df).1 := by
  unfold schedule_all_subjects_comprehensively
  split
  · exact SchedInv_init df MAX hinit
  · dsimp only
    have hq : ∀ v ∈ masterQueue (buildAtomicUnits df), UnitFromDf df v := by
      intro v hv
      exact buildAtomicUnits_from df v (masterQueue_mem (buildAtomicUnits df) v hv)
    have hmain := runMainDays_inv w0 hs endD MAX (allBranchSemCombinations df) df 15 base 0
      { df := df, cap := emptyCap, daily := emptyDaily } (masterQueue (buildAtomicUnits df))
      (SchedInv_init df MAX hinit) hq
    exact (runExtendedDays_inv w0 hs endD MAX df _ _ _ _ hmain.1 hmain.2).1

/-- C3: immediately after the comprehensive scheduler completes (before
the optimizers run), every (date, slot) session's summed admitted student
total is at or below the configured ceiling; and a unit that fits in
neither its preferred slot nor the alternate slot gets no slot (it is
skipped for that day). -/
theorem C3_capacity_respected (w0 : Nat) (hs : List Nat) (base endD MAX : Nat) (df : List Row)
    (hinit : ∀ r ∈ df, r.examDate = ExamDate.unassigned) :
    (∀ d sl, get_session_capacity
        (schedule_all_subjects_comprehensively w0 hs base endD MAX df).1.cap d sl ≤ MAX) ∧
    (∀ (cap : Cap) (d : Nat) (pref : Slot) (total : Nat),
      can_fit_in_session MAX cap d pref total = false →
      can_fit_in_session MAX cap d (altSlot pref) total = false →
      chooseSlotWithCapacity MAX cap d pref total = none) := by
  constructor
  · intro d sl
    exact (schedule_all_inv w0 hs base endD MAX df hinit).2.1 d sl
  · intro cap d pref total h1 h2
    exact chooseSlot_none_of_unfit MAX cap d pref total h1 h2

theorem C3_capacity_respected_witness :
    get_session_capacity
      (schedule_all_subjects_comprehensively 0 [] 1 10 2000 [c3Row]).1.cap 1 Slot.morning
        ≤ 2000 :=
  (C3_capacity_respected 0 [] 1 10 2000 [c3Row] (by decide)).1 1 Slot.morning

/-- C10: an atomic unit whose own total demand exceeds the per-session
ceiling is never admitted by any phase (every admission check starts from
a non-negative running total), so all its offerings leave the scheduler
with the `Exam Date` field still empty. -/
theorem C10_oversized_unit_never_scheduled (w0 : Nat) (hs : List Nat) (base endD MAX : Nat)
    (df : List Row) (hinit : ∀ r ∈ df, r.examDate = ExamDate.unassigned) (i : Nat)
    (hi : i < df.length) (helig : eligibleRow (rget df i) = true)
    (hbig : MAX < unitGroupTotal df ((rget df i).moduleCode)) :
    (rget (schedule_all_subjects_comprehensively w0 hs base endD MAX df).1.df i).examDate
      = ExamDate.unassigned :=
  (schedule_all_inv w0 hs base endD MAX df hinit).2.2.1 i hi helig hbig

theorem C10_oversized_unit_never_scheduled_witness :
    2000 < unitGroupTotal [c10Row] ((rget [c10Row] 0).moduleCode) ∧
    (rget (schedule_all_subjects_comprehensively 0 [] 1 40 2000 [c10Row]).1.df 0).examDate
      = ExamDate.unassigned :=
  ⟨by decide, C10_oversized_unit_never_scheduled 0 [] 1 40 2000 [c10Row] (by decide) 0
      (by decide) (by decide) (by decide)⟩

/-- C4 (code_bug): a unit still unassigned when the extended phase ends is
left on the queue with its `Exam Date` cell still empty — nowhere in the
source is the terminal "Out of Range" marker ever written (the repository
only ever reads it), so the offering is not marked as the claim
requires. -/
theorem C4_unassigned_left_empty :
    (schedule_all_subjects_comprehensively 0 [] 1 40 2000 [c4Row]).2 ≠ [] ∧
    (rget (schedule_all_subjects_comprehensively 0 [] 1 40 2000 [c4Row]).1.df 0).examDate
        = ExamDate.unassigned ∧
    (rget (schedule_all_subjects_comprehensively 0 [] 1 40 2000 [c4Row]).1.df 0).examDate
        ≠ ExamDate.outOfRange := by
  decide

/-- C1 (code_bug): the frequency-2 unit (module 2) is `isCommon`; the
scheduler assigns both of its offerings one shared date (day 2, after the
common-within unit takes branch 2 on day 1), but the gap-fill optimizer —
which filters rows by the row-level flags only and so treats the
offerings of a frequency-2 unit as movable individually — relocates the
branch-1 offering to day 1 while the branch-2 offering stays on day 2,
splitting the common unit in the final output.  (The scheduler's output
is already ordered by semester and date, so running the optimizer on it
directly matches the pipeline.) -/
theorem C1_gapfill_splits_common_unit :
    (mkAtomicUnit c1Input 2).isCommon = true ∧
    (rget (schedule_all_subjects_comprehensively 0 [] 1 30 2000 c1Input).1.df 1).examDate
        = (rget (schedule_all_subjects_comprehensively 0 [] 1 30 2000 c1Input).1.df 2).examDate ∧
    (rget (optimize_schedule_by_filling_gaps 0 [] 1 30
        (schedule_all_subjects_comprehensively 0 [] 1 30 2000 c1Input).1.df).1 1).examDate
        = ExamDate.assigned 1 ∧
    (rget (optimize_schedule_by_filling_gaps 0 [] 1 30
        (schedule_all_subjects_comprehensively 0 [] 1 30 2000 c1Input).1.df).1 2).examDate
        = ExamDate.assigned 2 := by
  decide

/-- C2 counterexample: after gap fill, two distinct atomic units that both
touch cohort (branch 2, semester 1) each carry an offering on day 1 — the
common-within unit sits there, and the split frequency-2 unit has its
relocated branch-1 offering there while still touching branch 2 — so "at
most one AtomicUnit touching that key is assigned to that date" fails as
stated. -/
theorem C2_unit_double_booking_counterexample :
    unitTouches (mkAtomicUnit c1Input 1) (2, 1) = true ∧
    unitTouches (mkAtomicUnit c1Input 2) (2, 1) = true ∧
    (mkAtomicUnit c1Input 1).moduleCode ≠ (mkAtomicUnit c1Input 2).moduleCode ∧
    unitAssignedOn (optimize_schedule_by_filling_gaps 0 [] 1 30
        (schedule_all_subjects_comprehensively 0 [] 1 30 2000 c1Input).1.df).1
      (mkAtomicUnit c1Input 1) 1 = true ∧
    unitAssignedOn (optimize_schedule_by_filling_gaps 0 [] 1 30
        (schedule_all_subjects_comprehensively 0 [] 1 30 2000 c1Input).1.df).1
      (mkAtomicUnit c1Input 2) 1 = true := by
  decide

theorem dateIs_iff (e : ExamDate) (d : Nat) : dateIs e d = true ↔ e = ExamDate.assigned d := by
  cases e <;> simp [dateIs]

theorem mem_datesOf (s : List Row) (d : Nat) :
    d ∈ datesOf s ↔ ∃ r ∈ s, r.examDate = ExamDate.assigned d := by
  unfold datesOf
  rw [List.mem_filterMap]
  constructor
  · rintro ⟨r, hr, hf⟩
    refine ⟨r, hr, ?_⟩
    rcases he : r.examDate with _ | x | _ <;> rw [he] at hf <;> simp at hf
    rw [hf]
  · rintro ⟨r, hr, he⟩
    exact ⟨r, hr, by rw [he]⟩

theorem dayOccupied_iff (s : List Row) (d : Nat) :
    dayOccupied s d = true ↔ d ∈ datesOf s := by
  unfold dayOccupied
  rw [List.any_eq_true, mem_datesOf]
  constructor
  · rintro ⟨r, hr, hp⟩
    exact ⟨r, hr, (dateIs_iff _ _).mp hp⟩
  · rintro ⟨r, hr, he⟩
    exact ⟨r, hr, (dateIs_iff _ _).mpr he⟩

theorem listMin_le : ∀ (l : List Nat), ∀ x ∈ l, listMin l ≤ x := by
  intro l
  induction l with
  | nil => intro x hx; cases hx
  | cons a t ih =>
    intro x hx
    rcases t with _ | ⟨b, t2⟩
    · rcases List.mem_singleton.mp hx with rfl
      exact Nat.le_refl _
    · rcases List.mem_cons.mp hx with rfl | hx2
      · exact Nat.min_le_left _ _
      · exact Nat.le_trans (Nat.min_le_right _ _) (ih x hx2)

theorem listMin_mem : ∀ (l : List Nat), l ≠ [] → listMin l ∈ l := by
  intro l
  induction l with
  | nil => intro h; exact absurd rfl h
  | cons a t ih =>
    intro _
    rcases t with _ | ⟨b, t2⟩
    · exact List.mem_singleton.mpr rfl
    · rcases Nat.le_total a (listMin (b :: t2)) with h | h
      · rw [show listMin (a :: b :: t2) = min a (listMin (b :: t2)) from rfl,
          Nat.min_eq_left h]
        exact List.mem_cons_self _ _
      · rw [show listMin (a :: b :: t2) = min a (listMin (b :: t2)) from rfl,
          Nat.min_eq_right h]
        exact List.mem_cons_of_mem _ (ih (by simp))

theorem listMax_mem : ∀ (l : List Nat), l ≠ [] → listMax l ∈ l := by
  intro l
  induction l with
  | nil => intro h; exact absurd rfl h
  | cons a t ih =>
    intro _
    rcases t with _ | ⟨b, t2⟩
    · simp [listMax]
    · rcases Nat.le_total a (listMax (b :: t2)) with h | h
      · rw [show listMax (a :: b :: t2) = max a (listMax (b :: t2)) from rfl,
          Nat.max_eq_right h]
        exact List.mem_cons_of_mem _ (ih (by simp))
      · rw [show listMax (a :: b :: t2) = max a (listMax (b :: t2)) from rfl,
          Nat.max_eq_left h]
        exact List.mem_cons_self _ _

theorem pairwise_lt_range1 : ∀ (n s : Nat), List.Pairwise (· < ·) (List.range' s n) := by
  intro n
  induction n with
  | zero => intro s; exact List.Pairwise.nil
  | succ m ih =>
    intro s
    rw [List.range'_succ]
    exact List.Pairwise.cons
      (fun x hx => by
        have := (List.mem_range'_1.mp hx).1
        omega)
      (ih (s + 1))

theorem emptyDays_pairwise (w0 : Nat) (hs : List Nat) (s : List Row) :
    List.Pairwise (· < ·) (completelyEmptyDays w0 hs s) := by
  unfold completelyEmptyDays
  exact List.Pairwise.filter _ (pairwise_lt_range1 _ _)

theorem mem_emptyDays (w0 : Nat) (hs : List Nat) (s : List Row) (d : Nat) :
    d ∈ completelyEmptyDays w0 hs s ↔
      (minAssignedDate s ≤ d ∧ d ≤ lastAssignedDate s ∧ isValidDay w0 hs d = true ∧
       dayOccupied s d = false) := by
  unfold completelyEmptyDays
  rw [List.mem_filter, List.mem_range'_1]
  constructor
  · rintro ⟨⟨h1, h2⟩, h3⟩
    have h4 := (Bool.and_eq_true _ _).mp h3
    refine ⟨h1, by omega, h4.1, by simpa using h4.2⟩
  · rintro ⟨h1, h2, h3, h4⟩
    refine ⟨⟨h1, by omega⟩, ?_⟩
    rw [Bool.and_eq_true]
    exact ⟨h3, by simpa using h4⟩

theorem contains_iff_nat (l : List Nat) (x : Nat) : l.contains x = true ↔ x ∈ l := by
  simp

theorem contains_iff_key (l : List (Nat × Nat × Nat)) (x : Nat × Nat × Nat) :
    l.contains x = true ↔ x ∈ l := by
  simp

theorem findOEPairGo_some (w0 : Nat) (hs : List Nat) (full : List Nat) (cur : Nat) :
    ∀ (l : List Nat), List.Pairwise (· < ·) l →
      ∀ a n, findOEPairGo w0 hs full cur l = some (a, n) →
      a ∈ l ∧ a < cur ∧ find_next_valid_day_for_electives w0 hs (a + 1) = some n ∧
        n ∈ full ∧
        ∀ e ∈ l, e < a →
          ∀ m, find_next_valid_day_for_electives w0 hs (e + 1) = some m → m ∉ full := by
  intro l
  induction l with
  | nil => intro _ a n h; exact absurd h (by simp [findOEPairGo])
  | cons e rest ih =>
    intro hpw a n h
    have hpwr : rest.Pairwise (· < ·) := (List.pairwise_cons.mp hpw).2
    have hlt : ∀ x ∈ rest, e < x := (List.pairwise_cons.mp hpw).1
    unfold findOEPairGo at h
    split at h
    · exact absurd h (by simp)
    · rename_i hcur
      rcases hfe : find_next_valid_day_for_electives w0 hs (e + 1) with _ | n0
      · rw [hfe] at h
        obtain ⟨ha1, ha2, ha3, ha4, ha5⟩ := ih hpwr a n h
        refine ⟨List.mem_cons_of_mem _ ha1, ha2, ha3, ha4, ?_⟩
        intro e2 he2 he2a m hm
        rcases List.mem_cons.mp he2 with rfl | he2r
        · rw [hfe] at hm; cases hm
        · exact ha5 e2 he2r he2a m hm
      · rw [hfe] at h
        dsimp only at h
        by_cases hcont : full.contains n0 = true
        · rw [if_pos hcont] at h
          have hae : a = e ∧ n = n0 := by
            have := h
            simp at this
            exact ⟨this.1.symm, this.2.symm⟩
          obtain ⟨rfl, rfl⟩ := hae
          refine ⟨List.mem_cons_self _ _, by omega, hfe,
            (contains_iff_nat full n).mp hcont, ?_⟩
          intro e2 he2 he2a m hm
          rcases List.mem_cons.mp he2 with rfl | he2r
          · omega
          · exact absurd he2a (by have := hlt e2 he2r; omega)
        · rw [if_neg hcont] at h
          obtain ⟨ha1, ha2, ha3, ha4, ha5⟩ := ih hpwr a n h
          refine ⟨List.mem_cons_of_mem _ ha1, ha2, ha3, ha4, ?_⟩
          intro e2 he2 he2a m hm
          rcases List.mem_cons.mp he2 with rfl | he2r
          · rw [hfe] at hm
            have : n0 = m := by simpa using hm
            subst this
            exact fun hmem => hcont ((contains_iff_nat full n0).mpr hmem)
          · exact ha5 e2 he2r he2a m hm

theorem findOEPairGo_none (w0 : Nat) (hs : List Nat) (full : List Nat) (cur : Nat) :
    ∀ (l : List Nat),
      (∀ e ∈ l, e < cur →
        ∀ m, find_next_valid_day_for_electives w0 hs (e + 1) = some m → m ∉ full) →
      findOEPairGo w0 hs full cur l = none := by
  intro l
  induction l with
  | nil => intro _; rfl
  | cons e rest ih =>
    intro hfail
    unfold findOEPairGo
    split
    · rfl
    · rename_i hcur
      rcases hfe : find_next_valid_day_for_electives w0 hs (e + 1) with _ | n0
      · exact ih (fun e2 he2 he2c m hm => hfail e2 (List.mem_cons_of_mem _ he2) he2c m hm)
      · have hnot : n0 ∉ full :=
          hfail e (List.mem_cons_self _ _) (by omega) n0 hfe
        have hcf : full.contains n0 = false := by
          rcases hcc : full.contains n0 with _ | _
          · rfl
          · exact absurd ((contains_iff_nat full n0).mp hcc) hnot
        dsimp only
        rw [hcf]
        simp only [Bool.false_eq_true, if_false]
        exact ih (fun e2 he2 he2c m hm => hfail e2 (List.mem_cons_of_mem _ he2) he2c m hm)

theorem oeStampFn_oe (b1 b2 : Nat) (r : Row) : (oeStampFn b1 b2 r).oe = r.oe := by
  unfold oeStampFn
  split
  · rfl
  · split <;> rfl

theorem oeStampFn_key (b1 b2 : Nat) (r : Row) : rowKey (oeStampFn b1 b2 r) = rowKey r := by
  unfold oeStampFn
  split
  · rfl
  · split <;> rfl

theorem isOE15_oeStampFn (b1 b2 : Nat) (r : Row) :
    isOE15 (oeStampFn b1 b2 r) = isOE15 r := by
  show ((oeStampFn b1 b2 r).oe == some 1 || (oeStampFn b1 b2 r).oe == some 5) = isOE15 r
  rw [oeStampFn_oe]
  rfl

theorem oeStampFn_of_OE15 (b1 b2 : Nat) (r : Row) (h : isOE15 r = true) :
    oeStampFn b1 b2 r =
      { r with examDate := ExamDate.assigned b1, timeSlot := some Slot.morning } := by
  unfold oeStampFn
  rw [if_pos h]

theorem OE15_not_OE2 (r : Row) (h : isOE15 r = true) : isOE2 r = false := by
  have h2 := h
  simp [isOE15] at h2
  rcases h2 with h1 | h1 <;> simp [isOE2, h1]

theorem oeStampFn_of_OE2 (b1 b2 : Nat) (r : Row) (h15 : isOE15 r = false)
    (h2 : isOE2 r = true) :
    oeStampFn b1 b2 r =
      { r with examDate := ExamDate.assigned b2, timeSlot := some Slot.afternoon } := by
  unfold oeStampFn
  rw [if_neg (by simp [h15]), if_pos h2]

theorem oeStampFn_of_other (b1 b2 : Nat) (r : Row) (h15 : isOE15 r = false)
    (h2 : isOE2 r = false) : oeStampFn b1 b2 r = r := by
  unfold oeStampFn
  rw [if_neg (by simp [h15]), if_neg (by simp [h2])]

theorem isOE15_oe_congr (r r2 : Row) (h : r.oe = r2.oe) : isOE15 r = isOE15 r2 := by
  unfold isOE15
  rw [h]

theorem isOE2_oe_congr (r r2 : Row) (h : r.oe = r2.oe) : isOE2 r = isOE2 r2 := by
  unfold isOE2
  rw [h]

theorem keys_contains_iff15 (s : List Row)
    (hkeys : ∀ r ∈ s, ∀ r2 ∈ s, rowKey r = rowKey r2 → r.oe = r2.oe) (r : Row) (hr : r ∈ s) :
    ((s.filter isOE15).map rowKey).contains (rowKey r) = true ↔ isOE15 r = true := by
  rw [contains_iff_key, List.mem_map]
  constructor
  · rintro ⟨r2, hr2, hkey⟩
    have hr2s := (List.mem_filter.mp hr2).1
    have hr2oe := (List.mem_filter.mp hr2).2
    have hoe := hkeys r2 hr2s r hr hkey
    rw [← isOE15_oe_congr r2 r hoe]
    exact hr2oe
  · intro h15
    exact ⟨r, List.mem_filter.mpr ⟨hr, h15⟩, rfl⟩

theorem keys_contains_iff2 (s : List Row)
    (hkeys : ∀ r ∈ s, ∀ r2 ∈ s, rowKey r = rowKey r2 → r.oe = r2.oe) (r : Row) (hr : r ∈ s) :
    ((s.filter isOE2).map rowKey).contains (rowKey r) = true ↔ isOE2 r = true := by
  rw [contains_iff_key, List.mem_map]
  constructor
  · rintro ⟨r2, hr2, hkey⟩
    have hr2s := (List.mem_filter.mp hr2).1
    have hr2oe := (List.mem_filter.mp hr2).2
    have hoe := hkeys r2 hr2s r hr hkey
    rw [← isOE2_oe_congr r2 r hoe]
    exact hr2oe
  · intro h2
    exact ⟨r, List.mem_filter.mpr ⟨hr, h2⟩, rfl⟩

theorem rowKey_update (r : Row) (e : ExamDate) (t : Option Slot) :
    rowKey ({ r with examDate := e, timeSlot := t }) = rowKey r := rfl

/-- When elective rows are uniquely identified by their keys, the two
mask passes of a successful relocation act per row exactly as
`oeStampFn`. -/
theorem stampKeys_stamp_eq_map (s : List Row)
    (hkeys : ∀ r ∈ s, ∀ r2 ∈ s, rowKey r = rowKey r2 → r.oe = r2.oe) (b1 b2 : Nat) :
    stampKeys (stampKeys s ((s.filter isOE15).map rowKey) b1 Slot.morning)
      ((s.filter isOE2).map rowKey) b2 Slot.afternoon = s.map (oeStampFn b1 b2) := by
  unfold stampKeys
  rw [List.map_map]
  apply map_congr_mem
  intro r hr
  have hc1 := keys_contains_iff15 s hkeys r hr
  have hc2 := keys_contains_iff2 s hkeys r hr
  simp only [Function.comp_apply]
  rcases h15 : isOE15 r with _ | _ <;> rcases h2 : isOE2 r with _ | _
  · have hn1 : ¬ (((s.filter isOE15).map rowKey).contains (rowKey r) = true) := by
      intro hx
      have h3 := hc1.mp hx
      rw [h15] at h3
      exact Bool.noConfusion h3
    have hn2 : ¬ (((s.filter isOE2).map rowKey).contains (rowKey r) = true) := by
      intro hx
      have h3 := hc2.mp hx
      rw [h2] at h3
      exact Bool.noConfusion h3
    rw [if_neg hn1, if_neg hn2, oeStampFn_of_other b1 b2 r h15 h2]
  · have hn1 : ¬ (((s.filter isOE15).map rowKey).contains (rowKey r) = true) := by
      intro hx
      have h3 := hc1.mp hx
      rw [h15] at h3
      exact Bool.noConfusion h3
    rw [if_neg hn1, if_pos (hc2.mpr h2), oeStampFn_of_OE2 b1 b2 r h15 h2]
  · have hn2 : ¬ (((s.filter isOE2).map rowKey).contains (rowKey r) = true) := by
      intro hx
      have h3 := hc2.mp hx
      rw [h2] at h3
      exact Bool.noConfusion h3
    rw [if_pos (hc1.mpr h15), rowKey_update, if_neg hn2, oeStampFn_of_OE15 b1 b2 r h15]
  · have h3 := OE15_not_OE2 r h15
    rw [h2] at h3
    exact Bool.noConfusion h3

/-- Whenever the scan of the second run finds no pair (for whatever first
OE1/OE5 row and date it sees), the optimizer reports zero moves. -/
theorem opt_snd_eq_zero (w0 : Nat) (hs : List Nat) (t : List Row)
    (hnp : ∀ r0 cur, t.find? isOE15 = some r0 → r0.examDate = ExamDate.assigned cur →
      findOEPairGo w0 hs (completelyEmptyDays w0 hs t) cur (completelyEmptyDays w0 hs t)
        = none) :
    (optimize_oe_subjects_after_scheduling w0 hs t).2 = 0 := by
  unfold optimize_oe_subjects_after_scheduling
  split
  · rfl
  · split
    · rfl
    · split
      · rfl
      · rcases hf : t.find? isOE15 with _ | r0
        · rfl
        · dsimp only
          rcases hd : r0.examDate with _ | cur | _
          · rfl
          · dsimp only
            rw [hnp r0 cur hf hd]
          · rfl

/-- The optimizer either returns its input with zero moves, or performs
the single relocation determined by the scan. -/
theorem opt_cases (w0 : Nat) (hs : List Nat) (s : List Row) :
    optimize_oe_subjects_after_scheduling w0 hs s = (s, 0) ∨
    ∃ r0 cur b1 b2,
      s.find? isOE15 = some r0 ∧ r0.examDate = ExamDate.assigned cur ∧
      (datesOf s).isEmpty = false ∧
      findOEPairGo w0 hs (completelyEmptyDays w0 hs s) cur (completelyEmptyDays w0 hs s)
        = some (b1, b2) ∧
      optimize_oe_subjects_after_scheduling w0 hs s =
        (stampKeys (stampKeys s ((s.filter isOE15).map rowKey) b1 Slot.morning)
          ((s.filter isOE2).map rowKey) b2 Slot.afternoon, 1) := by
  unfold optimize_oe_subjects_after_scheduling
  split
  · left; rfl
  · rename_i hoe
    split
    · left; rfl
    · rename_i hdates
      split
      · left; rfl
      · rename_i hemp
        rcases hf : s.find? isOE15 with _ | r0
        · left; rfl
        · dsimp only
          rcases hd : r0.examDate with _ | cur | _
          · left; rfl
          · dsimp only
            rcases hp : findOEPairGo w0 hs (completelyEmptyDays w0 hs s) cur
                (completelyEmptyDays w0 hs s) with _ | ⟨b1, b2⟩
            · left; rfl
            · right
              refine ⟨r0, cur, b1, b2, rfl, hd, by simpa using hdates, hp, rfl⟩
          · left; rfl

theorem bool_eq_of_iff {a b : Bool} (h : (a = true) ↔ (b = true)) : a = b := by
  cases a <;> cases b <;> simp_all

/-- C9 counterexample: on `c9Input` the first run relocates all OE1 rows
to day 7 (pair (7, 8)), which vacates days 2 and 3; the second run then
finds the new empty pair (2, 3) before the new OE date 7 and moves again —
`moves_made` of the second run is 1, not 0. -/
theorem C9_not_idempotent_counterexample :
    (optimize_oe_subjects_after_scheduling 2 []
      (optimize_oe_subjects_after_scheduling 2 [] c9Input).1).2 = 1 := by
  decide

/-- C9 (amended): running the OE relocation a second time on its own
output produces zero further moves, provided the input is in the state
the elective scheduler produces — every OE1/OE5 offering carries one
common assigned date, every OE2 offering carries one common assigned date
no earlier than it, and elective offerings are uniquely identified by
their (semester, subject, branch) keys. -/
theorem C9_idempotent_after_unified (w0 : Nat) (hs : List Nat) (s : List Row) (d1 d2 : Nat)
    (hOE15 : ∀ r ∈ s, isOE15 r = true → r.examDate = ExamDate.assigned d1)
    (hOE2 : ∀ r ∈ s, isOE2 r = true → r.examDate = ExamDate.assigned d2)
    (hd12 : d1 ≤ d2)
    (hkeys : ∀ r ∈ s, ∀ r2 ∈ s, rowKey r = rowKey r2 → r.oe = r2.oe) :
    (optimize_oe_subjects_after_scheduling w0 hs
      (optimize_oe_subjects_after_scheduling w0 hs s).1).2 = 0 := by
  rcases opt_cases w0 hs s with hid | ⟨r0, cur, b1, b2, hf, hdt, hne, hpair, heq⟩
  · rw [hid]
    dsimp only
    rw [hid]
  · have hr0mem : r0 ∈ s := List.mem_of_find?_eq_some hf
    have hr0OE : isOE15 r0 = true := List.find?_some hf
    have hcur : cur = d1 := by
      have h1 := hOE15 r0 hr0mem hr0OE
      rw [hdt] at h1
      simpa using h1
    obtain ⟨hb1E, hb1cur, hfe2, hb2E, hprefix⟩ :=
      findOEPairGo_some w0 hs (completelyEmptyDays w0 hs s) cur (completelyEmptyDays w0 hs s)
        (emptyDays_pairwise w0 hs s) b1 b2 hpair
    obtain ⟨hb1min, hb1max, hb1valid, hb1occ⟩ := (mem_emptyDays w0 hs s b1).mp hb1E
    obtain ⟨hb2min, hb2max, hb2valid, hb2occ⟩ := (mem_emptyDays w0 hs s b2).mp hb2E
    obtain ⟨hb2v2, hb2ge, hb2minimal⟩ :=
      find_next_valid_day_for_electives_spec w0 hs (b1 + 1) b2 hfe2
    have hb12 : b1 < b2 := by omega
    have hdne : datesOf s ≠ [] := by
      intro hnil
      rw [hnil] at hne
      simp at hne
    have hmin1mem : minAssignedDate s ∈ datesOf s := listMin_mem _ hdne
    have hocc_min1 : dayOccupied s (minAssignedDate s) = true :=
      (dayOccupied_iff _ _).mpr hmin1mem
    have hmin1_lt_b1 : minAssignedDate s < b1 := by
      rcases Nat.lt_or_ge (minAssignedDate s) b1 with h | h
      · exact h
      · exfalso
        have he : minAssignedDate s = b1 := by omega
        rw [he] at hocc_min1
        rw [hocc_min1] at hb1occ
        exact Bool.noConfusion hb1occ
    rw [stampKeys_stamp_eq_map s hkeys b1 b2] at heq
    rw [heq]
    dsimp only
    have hgdate15 : ∀ r : Row, isOE15 r = true →
        (oeStampFn b1 b2 r).examDate = ExamDate.assigned b1 := by
      intro r h
      rw [oeStampFn_of_OE15 b1 b2 r h]
    have hgdate2 : ∀ r : Row, isOE15 r = false → isOE2 r = true →
        (oeStampFn b1 b2 r).examDate = ExamDate.assigned b2 := by
      intro r h15 h2
      rw [oeStampFn_of_OE2 b1 b2 r h15 h2]
    have hocc_pres : ∀ d, d < b1 →
        dayOccupied (s.map (oeStampFn b1 b2)) d = dayOccupied s d := by
      intro d hd
      apply bool_eq_of_iff
      rw [dayOccupied_iff, dayOccupied_iff, mem_datesOf, mem_datesOf]
      constructor
      · rintro ⟨r2, hr2, hdate⟩
        obtain ⟨r, hr, rfl⟩ := List.mem_map.mp hr2
        rcases h15 : isOE15 r with _ | _
        · rcases h2 : isOE2 r with _ | _
          · rw [oeStampFn_of_other b1 b2 r h15 h2] at hdate
            exact ⟨r, hr, hdate⟩
          · rw [hgdate2 r h15 h2] at hdate
            have hx : b2 = d := by simpa using hdate
            omega
        · rw [hgdate15 r h15] at hdate
          have hx : b1 = d := by simpa using hdate
          omega
      · rintro ⟨r, hr, hdate⟩
        refine ⟨oeStampFn b1 b2 r, List.mem_map_of_mem _ hr, ?_⟩
        rcases h15 : isOE15 r with _ | _
        · rcases h2 : isOE2 r with _ | _
          · rw [oeStampFn_of_other b1 b2 r h15 h2]
            exact hdate
          · exfalso
            have hde := hOE2 r hr h2
            rw [hdate] at hde
            have hx : d = d2 := by simpa using hde
            omega
        · exfalso
          have hde := hOE15 r hr h15
          rw [hdate] at hde
          have hx : d = d1 := by simpa using hde
          omega
    have hb1occ2 : dayOccupied (s.map (oeStampFn b1 b2)) b1 = true := by
      rw [dayOccupied_iff, mem_datesOf]
      exact ⟨oeStampFn b1 b2 r0, List.mem_map_of_mem _ hr0mem, hgdate15 r0 hr0OE⟩
    have hd2ne : datesOf (s.map (oeStampFn b1 b2)) ≠ [] := by
      intro hnil
      have hx := (dayOccupied_iff _ b1).mp hb1occ2
      rw [hnil] at hx
      cases hx
    have hdates2_ge : ∀ x ∈ datesOf (s.map (oeStampFn b1 b2)), minAssignedDate s ≤ x := by
      intro x hx
      obtain ⟨r2, hr2, hdate⟩ := (mem_datesOf _ _).mp hx
      obtain ⟨r, hr, rfl⟩ := List.mem_map.mp hr2
      rcases h15 : isOE15 r with _ | _
      · rcases h2 : isOE2 r with _ | _
        · rw [oeStampFn_of_other b1 b2 r h15 h2] at hdate
          exact listMin_le _ x ((mem_datesOf s x).mpr ⟨r, hr, hdate⟩)
        · rw [hgdate2 r h15 h2] at hdate
          have hx2 : b2 = x := by simpa using hdate
          omega
      · rw [hgdate15 r h15] at hdate
        have hx2 : b1 = x := by simpa using hdate
        omega
    have hmin2 : minAssignedDate (s.map (oeStampFn b1 b2)) = minAssignedDate s := by
      apply Nat.le_antisymm
      · have hmem : minAssignedDate s ∈ datesOf (s.map (oeStampFn b1 b2)) := by
          apply (dayOccupied_iff _ _).mp
          rw [hocc_pres _ hmin1_lt_b1]
          exact hocc_min1
        exact listMin_le _ _ hmem
      · exact hdates2_ge _ (listMin_mem _ hd2ne)
    have hfind2 : (s.map (oeStampFn b1 b2)).find? isOE15 = some (oeStampFn b1 b2 r0) := by
      rw [List.find?_map]
      have hfn : (isOE15 ∘ oeStampFn b1 b2) = isOE15 := by
        funext r
        exact isOE15_oeStampFn b1 b2 r
      rw [hfn, hf]
      rfl
    apply opt_snd_eq_zero
    intro r0x curx hfx hdx
    rw [hfind2] at hfx
    have hr0x : r0x = oeStampFn b1 b2 r0 := by
      have hx := hfx
      simp at hx
      exact hx.symm
    rw [hr0x, hgdate15 r0 hr0OE] at hdx
    have hcurx : b1 = curx := by simpa using hdx
    subst hcurx
    apply findOEPairGo_none
    intro e he helt m hm
    obtain ⟨hemin, hemax, hevalid, heocc⟩ := (mem_emptyDays _ _ _ _).mp he
    rw [hmin2] at hemin
    have heocc1 : dayOccupied s e = false := by
      rw [← hocc_pres e helt]
      exact heocc
    have heE1 : e ∈ completelyEmptyDays w0 hs s :=
      (mem_emptyDays w0 hs s e).mpr ⟨hemin, by omega, hevalid, heocc1⟩
    obtain ⟨hmvalid, hmge, hmmin⟩ := find_next_valid_day_for_electives_spec w0 hs (e + 1) m hm
    have hmle : m ≤ b1 := by
      by_contra hgt
      push_neg at hgt
      have hx := hmmin b1 (by omega) hgt
      rw [hb1valid] at hx
      exact Bool.noConfusion hx
    have hmnotE1 : m ∉ completelyEmptyDays w0 hs s := hprefix e heE1 helt m hm
    have hmne : m ≠ b1 := fun hmb => hmnotE1 (hmb ▸ hb1E)
    have hmlt : m < b1 := by omega
    have hmocc1 : dayOccupied s m = true := by
      rcases hoc : dayOccupied s m with _ | _
      · exfalso
        exact hmnotE1 ((mem_emptyDays w0 hs s m).mpr ⟨by omega, by omega, hmvalid, hoc⟩)
      · rfl
    intro hmE2
    obtain ⟨hm1, hm2, hm3, hmocc2⟩ := (mem_emptyDays _ _ _ _).mp hmE2
    rw [hocc_pres m hmlt, hmocc1] at hmocc2
    exact Bool.noConfusion hmocc2

theorem C9_idempotent_after_unified_witness :
    (optimize_oe_subjects_after_scheduling 0 []
      (optimize_oe_subjects_after_scheduling 0 [] c9WitnessInput).1).2 = 0 :=
  C9_idempotent_after_unified 0 [] c9WitnessInput 5 5 (by decide) (by decide) (by decide)
    (by decide)

theorem rget_set_ne (s : List Row) (i j : Nat) (r : Row) (hne : i ≠ j) :
    rget (s.set i r) j = rget s j := by
  rw [rget_eq_getElem, rget_eq_getElem, List.getElem?_set_ne hne]

theorem rget_set_self (s : List Row) (i : Nat) (r : Row) (hi : i < s.length) :
    rget (s.set i r) i = r := by
  rw [rget_eq_getElem, List.getElem?_set_self', List.getElem?_eq_getElem hi]
  rfl

theorem cohortBusyOn_false (st : List Row) (sem branch g : Nat)
    (h : cohortBusyOn st sem branch g = false) :
    ∀ r2 ∈ st, r2.semester = sem → r2.branch = branch → dateIs r2.examDate g = false := by
  intro r2 hmem hsem hbr
  unfold cohortBusyOn at h
  rw [List.any_eq_false] at h
  simpa [hsem, hbr] using h r2 hmem

/-- A move of the gap-fill loop preserves row-level clash-freedom: the
branch-semester emptiness mask rules out every same-cohort exam on the
target day at the moment of the move. -/
theorem gapFillStep_clashFree (w0 : Nat) (hs : List Nat) (base : Nat)
    (acc : List Row × Nat) (i : Nat) (h : cohortClashFree acc.1) :
    cohortClashFree (gapFillStep w0 hs base acc i).1 := by
  rcases hT : gapTarget w0 hs base acc.1 (rget acc.1 i) with _ | g
  · unfold gapFillStep
    rw [hT]
    exact h
  · obtain ⟨helig, d, hdate, hfind, hbusy⟩ := gapTarget_some w0 hs base acc.1 _ g hT
    have hi : i < acc.1.length := by
      by_contra hge
      have hde : rget acc.1 i = default := by
        rw [rget, List.getD_eq_getElem?_getD, List.getElem?_eq_none (Nat.le_of_not_lt hge)]
        rfl
      have h0 : (default : Row).examDate = ExamDate.unassigned := rfl
      rw [hde, h0] at hdate
      cases hdate
    unfold gapFillStep
    rw [hT]
    dsimp only
    intro a ha b hb hne hoea hoeb hcoh hshare
    rw [List.length_set] at ha hb
    by_cases hai : a = i
    · by_cases hbi : b = i
      · exact absurd (hai.trans hbi.symm) hne
      · subst hai
        exfalso
        rw [rget_set_self acc.1 a _ hi] at hshare hcoh
        rw [rget_set_ne acc.1 a b _ (fun hx => hbi hx.symm)] at hshare hcoh
        have hbdate : (rget acc.1 b).examDate = ExamDate.assigned g :=
          sharesAssigned_left g _ hshare
        have hcoh2 : cohortOf (rget acc.1 a) = cohortOf (rget acc.1 b) := hcoh
        have hbr : (rget acc.1 b).branch = (rget acc.1 a).branch :=
          (congrArg Prod.fst hcoh2).symm
        have hsem : (rget acc.1 b).semester = (rget acc.1 a).semester :=
          (congrArg Prod.snd hcoh2).symm
        have hfalse := cohortBusyOn_false acc.1 _ _ g hbusy (rget acc.1 b)
          (rget_mem acc.1 b hb) hsem hbr
        rw [(dateIs_iff _ g).mpr hbdate] at hfalse
        cases hfalse
    · by_cases hbi : b = i
      · subst hbi
        exfalso
        rw [rget_set_self acc.1 b _ hi] at hshare hcoh
        rw [rget_set_ne acc.1 b a _ (fun hx => hai hx.symm)] at hshare hcoh
        have hadate : (rget acc.1 a).examDate = ExamDate.assigned g :=
          sharesAssigned_right g _ hshare
        have hcoh2 : cohortOf (rget acc.1 a) = cohortOf (rget acc.1 b) := hcoh
        have hbr : (rget acc.1 a).branch = (rget acc.1 b).branch :=
          congrArg Prod.fst hcoh2
        have hsem : (rget acc.1 a).semester = (rget acc.1 b).semester :=
          congrArg Prod.snd hcoh2
        have hfalse := cohortBusyOn_false acc.1 _ _ g hbusy (rget acc.1 a)
          (rget_mem acc.1 a ha) hsem hbr
        rw [(dateIs_iff _ g).mpr hadate] at hfalse
        cases hfalse
      · rw [rget_set_ne acc.1 i a _ (fun hx => hai hx.symm)] at hoea hcoh hshare ⊢
        rw [rget_set_ne acc.1 i b _ (fun hx => hbi hx.symm)] at hoeb hcoh hshare ⊢
        exact h a ha b hb hne hoea hoeb hcoh hshare

theorem gapFill_fold_clashFree (w0 : Nat) (hs : List Nat) (base : Nat) :
    ∀ (l : List Nat) (acc : List Row × Nat), cohortClashFree acc.1 →
      cohortClashFree (l.foldl (gapFillStep w0 hs base) acc).1 := by
  intro l
  induction l with
  | nil => intro acc h; exact h
  | cons i rest ih => intro acc h; exact ih _ (gapFillStep_clashFree w0 hs base acc i h)

theorem gapFill_clashFree (w0 : Nat) (hs : List Nat) (base endDate : Nat) (s : List Row)
    (h : cohortClashFree s) :
    cohortClashFree (optimize_schedule_by_filling_gaps w0 hs base endDate s).1 := by
  unfold optimize_schedule_by_filling_gaps
  split
  · exact h
  · exact gapFill_fold_clashFree w0 hs base (List.range s.length) (s, 0) h

/-- Restamping the OE block touches only rows with an OE marking, so the
no-double-booking property over the non-elective rows survives. -/
theorem map_clashFree (b1 b2 : Nat) (s : List Row) (h : cohortClashFree s) :
    cohortClashFree (s.map (oeStampFn b1 b2)) := by
  intro a ha b hb hne hoea hoeb hcoh hshare
  rw [List.length_map] at ha hb
  have hga : rget (s.map (oeStampFn b1 b2)) a = oeStampFn b1 b2 (rget s a) := by
    rw [rget_eq_getElem, rget_eq_getElem, List.getElem?_map, List.getElem?_eq_getElem ha]
    rfl
  have hgb : rget (s.map (oeStampFn b1 b2)) b = oeStampFn b1 b2 (rget s b) := by
    rw [rget_eq_getElem, rget_eq_getElem, List.getElem?_map, List.getElem?_eq_getElem hb]
    rfl
  rw [hga] at hoea hcoh hshare ⊢
  rw [hgb] at hoeb hcoh hshare ⊢
  rw [oeStampFn_oe] at hoea hoeb
  have ha15 : isOE15 (rget s a) = false := by simp [isOE15, hoea]
  have ha2 : isOE2 (rget s a) = false := by simp [isOE2, hoea]
  have hb15 : isOE15 (rget s b) = false := by simp [isOE15, hoeb]
  have hb2 : isOE2 (rget s b) = false := by simp [isOE2, hoeb]
  rw [oeStampFn_of_other b1 b2 _ ha15 ha2] at hcoh hshare ⊢
  rw [oeStampFn_of_other b1 b2 _ hb15 hb2] at hcoh hshare ⊢
  exact h a ha b hb hne hoea hoeb hcoh hshare

theorem oe_opt_clashFree (w0 : Nat) (hs : List Nat) (s : List Row)
    (h : cohortClashFree s)
    (hkeys : ∀ r ∈ s, ∀ r2 ∈ s, rowKey r = rowKey r2 → r.oe = r2.oe) :
    cohortClashFree (optimize_oe_subjects_after_scheduling w0 hs s).1 := by
  rcases opt_cases w0 hs s with hid | ⟨r0, cur, b1, b2, hf2, hd2, hn2, hp2, heq⟩
  · rw [hid]
    exact h
  · rw [stampKeys_stamp_eq_map s hkeys b1 b2] at heq
    rw [heq]
    exact map_clashFree b1 b2 s h

/-- C2 (amended): row-level no-cohort-double-booking — two distinct
non-elective offerings of one (branch, semester) cohort assigned to one
date always belong to the same module (atomic unit) — is established by
the comprehensive scheduler from an all-unassigned input, is preserved by
the gap-fill pass, and is preserved by the OE relocation pass whenever
elective offerings are uniquely identified by their (semester, subject,
branch) keys.  (The unit-level form of the claim fails: gap-fill can split
a frequency>1 unit — see the C1/C2 counterexamples.) -/
theorem C2_row_level_no_double_booking (w0 : Nat) (hs : List Nat) (base endD MAX : Nat)
    (df : List Row) (hinit : ∀ r ∈ df, r.examDate = ExamDate.unassigned)
    (base2 endD2 : Nat) (s : List Row) (hcf : cohortClashFree s)
    (t : List Row) (hcf2 : cohortClashFree t)
    (hkeys : ∀ r ∈ t, ∀ r2 ∈ t, rowKey r = rowKey r2 → r.oe = r2.oe) :
    cohortClashFree (schedule_all_subjects_comprehensively w0 hs base endD MAX df).1.df ∧
    cohortClashFree (optimize_schedule_by_filling_gaps w0 hs base2 endD2 s).1 ∧
    cohortClashFree (optimize_oe_subjects_after_scheduling w0 hs t).1 :=
  ⟨(schedule_all_inv w0 hs base endD MAX df hinit).2.2.2.2,
   gapFill_clashFree w0 hs base2 endD2 s hcf,
   oe_opt_clashFree w0 hs t hcf2 hkeys⟩

theorem C2_row_level_no_double_booking_witness :
    cohortClashFree (schedule_all_subjects_comprehensively 0 [] 1 10 2000 [c2Row]).1.df ∧
    cohortClashFree (optimize_schedule_by_filling_gaps 0 [] 1 10 [c2RowDated]).1 ∧
    cohortClashFree (optimize_oe_subjects_after_scheduling 0 [] [c2RowDated]).1 :=
  C2_row_level_no_double_booking 0 [] 1 10 2000 [c2Row] (by decide) 1 10 [c2RowDated]
    (by intro a ha b hb hne; exfalso; simp only [List.length_cons, List.length_nil] at ha hb; omega) [c2RowDated]
    (by intro a ha b hb hne; exfalso; simp only [List.length_cons, List.length_nil] at ha hb; omega) (by decide)

theorem gapTarget_intro (w0 : Nat) (hs : List Nat) (base : Nat) (st : List Row) (r : Row)
    (d g : Nat) (helig : gapRowEligible r = true) (hdate : r.examDate = ExamDate.assigned d)
    (hfind : find_next_valid_day_in_range w0 hs base (d - 1) = some g)
    (hbusy : cohortBusyOn st r.semester r.branch g = false) :
    gapTarget w0 hs base st r = some g := by
  simp [gapTarget, helig, hdate, hfind, hbusy]

theorem gapFill_fold_length (w0 : Nat) (hs : List Nat) (base : Nat) :
    ∀ (l : List Nat) (acc : List Row × Nat),
      (l.foldl (gapFillStep w0 hs base) acc).1.length = acc.1.length := by
  intro l
  induction l with
  | nil => intro acc; rfl
  | cons i rest ih =>
    intro acc
    rw [List.foldl_cons, ih, gapFillStep_length]

theorem gapFillStep_self_none (w0 : Nat) (hs : List Nat) (base : Nat)
    (acc : List Row × Nat) (i : Nat)
    (hT : gapTarget w0 hs base acc.1 (rget acc.1 i) = none) :
    (gapFillStep w0 hs base acc i).1[i]? = acc.1[i]? := by
  unfold gapFillStep
  rw [hT]

theorem gapFillStep_self_some (w0 : Nat) (hs : List Nat) (base : Nat)
    (acc : List Row × Nat) (i g : Nat) (hi : i < acc.1.length)
    (hT : gapTarget w0 hs base acc.1 (rget acc.1 i) = some g) :
    (gapFillStep w0 hs base acc i).1[i]? =
      some { rget acc.1 i with examDate := ExamDate.assigned g } := by
  unfold gapFillStep
  rw [hT]
  dsimp only
  rw [List.getElem?_set_self', List.getElem?_eq_getElem hi]
  rfl

/-- The cell a row of the move loop ends with is fully decided at the step
that visits it: later steps touch other rows only. -/
theorem gapFill_out_at (w0 : Nat) (hs : List Nat) (base : Nat) (s : List Row) (j : Nat) :
    ∀ n, j < n →
      ((List.range n).foldl (gapFillStep w0 hs base) (s, 0)).1[j]? =
      (gapFillStep w0 hs base ((List.range j).foldl (gapFillStep w0 hs base) (s, 0)) j).1[j]?
    := by
  intro n
  induction n with
  | zero => intro h; exact absurd h (Nat.not_lt_zero j)
  | succ m ih =>
    intro h
    rw [show List.range (m + 1) = List.range m ++ [m] from List.range_succ m,
      List.foldl_append]
    simp only [List.foldl_cons, List.foldl_nil]
    by_cases hjm : j = m
    · subst hjm
      rfl
    · rw [gapFillStep_get_ne w0 hs base _ m j (fun hx => hjm hx.symm)]
      exact ih (by omega)

/-- C5 (amended): for every row of the move loop, the optimizer computes
only the single earliest valid calendar day on or after the campaign start
(and strictly before the row's current date) and relocates the row there
EXACTLY WHEN the row's common flags are unset, it carries a date, that one
candidate day exists, and — in the live state at the moment the row is
visited, earlier rows' moves already applied — the row's branch-semester
cohort has no exam on that one day; in every other case the row keeps its
cell.  It never searches later idle days. -/
theorem C5_gapfill_single_candidate (w0 : Nat) (hs : List Nat) (base endDate : Nat)
    (s : List Row) (j : Nat) (hj : j < s.length) :
    rget (gapPriorState w0 hs base s j) j = rget s j ∧
    ((∃ d g, gapRowEligible (rget s j) = true ∧
        (rget s j).examDate = ExamDate.assigned d ∧
        find_next_valid_day_in_range w0 hs base (d - 1) = some g ∧
        cohortBusyOn (gapPriorState w0 hs base s j) (rget s j).semester (rget s j).branch g
          = false ∧
        (optimize_schedule_by_filling_gaps w0 hs base endDate s).1[j]? =
          some { rget s j with examDate := ExamDate.assigned g }) ∨
      ((∀ d g, gapRowEligible (rget s j) = true →
          (rget s j).examDate = ExamDate.assigned d →
          find_next_valid_day_in_range w0 hs base (d - 1) = some g →
          cohortBusyOn (gapPriorState w0 hs base s j) (rget s j).semester (rget s j).branch g
            = true) ∧
        (optimize_schedule_by_filling_gaps w0 hs base endDate s).1[j]? = s[j]?)) := by
  have hprior_j : (gapPriorState w0 hs base s j)[j]? = s[j]? :=
    gapFill_fold_untouched w0 hs base (List.range j) (s, 0) j (by simp [List.mem_range])
  have hrr : rget (gapPriorState w0 hs base s j) j = rget s j := by
    rw [rget_eq_getElem, rget_eq_getElem, hprior_j]
  refine ⟨hrr, ?_⟩
  have hPdef : ((List.range j).foldl (gapFillStep w0 hs base) (s, 0)).1
      = gapPriorState w0 hs base s j := rfl
  unfold optimize_schedule_by_filling_gaps
  split
  · rename_i hemp
    right
    refine ⟨?_, rfl⟩
    intro d g helig hdate hfind
    exfalso
    have hd : d ∈ datesOf s := (mem_datesOf s d).mpr ⟨rget s j, rget_mem s j hj, hdate⟩
    rw [List.isEmpty_iff] at hemp
    rw [hemp] at hd
    cases hd
  · have hlen : (gapPriorState w0 hs base s j).length = s.length := by
      rw [← hPdef]
      exact gapFill_fold_length w0 hs base (List.range j) (s, 0)
    rcases hT : gapTarget w0 hs base (gapPriorState w0 hs base s j) (rget s j) with _ | g
    · have hTf : gapTarget w0 hs base
          ((List.range j).foldl (gapFillStep w0 hs base) (s, 0)).1
          (rget ((List.range j).foldl (gapFillStep w0 hs base) (s, 0)).1 j) = none := by
        rw [hPdef, hrr]
        exact hT
      have hout := gapFill_out_at w0 hs base s j s.length hj
      rw [gapFillStep_self_none w0 hs base _ j hTf] at hout
      rw [hPdef, hprior_j] at hout
      right
      refine ⟨?_, hout⟩
      intro d g helig hdate hfind
      rcases hbusy : cohortBusyOn (gapPriorState w0 hs base s j) (rget s j).semester
          (rget s j).branch g with _ | _
      · exfalso
        have hsome := gapTarget_intro w0 hs base (gapPriorState w0 hs base s j) (rget s j)
          d g helig hdate hfind hbusy
        rw [hT] at hsome
        cases hsome
      · rfl
    · have hTf : gapTarget w0 hs base
          ((List.range j).foldl (gapFillStep w0 hs base) (s, 0)).1
          (rget ((List.range j).foldl (gapFillStep w0 hs base) (s, 0)).1 j) = some g := by
        rw [hPdef, hrr]
        exact hT
      have hjlen : j < ((List.range j).foldl (gapFillStep w0 hs base) (s, 0)).1.length := by
        rw [hPdef, hlen]
        exact hj
      have hout := gapFill_out_at w0 hs base s j s.length hj
      rw [gapFillStep_self_some w0 hs base _ j g hjlen hTf] at hout
      rw [hPdef, hrr] at hout
      obtain ⟨helig, d, hdate, hfind, hbusy⟩ :=
        gapTarget_some w0 hs base (gapPriorState w0 hs base s j) (rget s j) g hT
      left
      exact ⟨d, g, helig, hdate, hfind, hbusy, hout⟩

theorem C5_gapfill_single_candidate_witness :
    rget (gapPriorState 0 [] 1 c5Input 1) 1 = rget c5Input 1 ∧
    ((∃ d g, gapRowEligible (rget c5Input 1) = true ∧
        (rget c5Input 1).examDate = ExamDate.assigned d ∧
        find_next_valid_day_in_range 0 [] 1 (d - 1) = some g ∧
        cohortBusyOn (gapPriorState 0 [] 1 c5Input 1) (rget c5Input 1).semester
          (rget c5Input 1).branch g = false ∧
        (optimize_schedule_by_filling_gaps 0 [] 1 30 c5Input).1[1]? =
          some { rget c5Input 1 with examDate := ExamDate.assigned g }) ∨
      ((∀ d g, gapRowEligible (rget c5Input 1) = true →
          (rget c5Input 1).examDate = ExamDate.assigned d →
          find_next_valid_day_in_range 0 [] 1 (d - 1) = some g →
          cohortBusyOn (gapPriorState 0 [] 1 c5Input 1) (rget c5Input 1).semester
            (rget c5Input 1).branch g = true) ∧
        (optimize_schedule_by_filling_gaps 0 [] 1 30 c5Input).1[1]? = c5Input[1]?)) :=
  C5_gapfill_single_candidate 0 [] 1 30 c5Input 1 (by decide)
